import Mathlib

/-!
# JZ4780 one-time-programmable efuse driver

A shallow embedding of `drivers/misc/efuse/jz4780_efuse.c`.

Conventions of the embedding.

* Machine integers are natural numbers reduced modulo `2 ^ 32` where the C code
  works on `unsigned int` / `unsigned long` (the JZ4780 is a 32-bit MIPS core, so
  `unsigned long` and `size_t` are 32 bits wide).  `int` values that can become
  negative are kept as their 32-bit two's-complement pattern.
* `char` is the signed 8-bit type of the MIPS o32 ABI; the core runs little-endian,
  so byte `k` of a 32-bit word `w` is `(w >>> (8 * k)) % 256`.
* The register window is part of the engine state: the configuration and control
  registers hold the last value written to them, the status register is an input
  stream supplied by the hardware, and the data-buffer registers hold what the
  driver wrote or what the fuse array has loaded since, another input stream.
* The constants of the header `jz4780_efuse.h` are not part of the sources at hand;
  they are the fields of `Hdr` and every statement quantifies over them.
-/

namespace JzEfuse

/-! ## 32-bit arithmetic -/

/-- Reduction of a value to an `unsigned int`. -/
def u32 (x : Nat) : Nat := x % 2 ^ 32

/-- Wrapping `a + b` on `unsigned int`. -/
def add32 (a b : Nat) : Nat := (a + b) % 2 ^ 32

/-- Wrapping `a - b` on `unsigned int`. -/
def sub32 (a b : Nat) : Nat := (a % 2 ^ 32 + (2 ^ 32 - b % 2 ^ 32)) % 2 ^ 32

/-- Wrapping `a * b` on `unsigned int`. -/
def mul32 (a b : Nat) : Nat := (a * b) % 2 ^ 32

/-- Bitwise complement `~a` of an `unsigned int`. -/
def not32 (a : Nat) : Nat := 0xFFFFFFFF ^^^ (a % 2 ^ 32)

/-- Left shift `a << n` of an `unsigned int`. -/
def shl32 (a n : Nat) : Nat := (a <<< n) % 2 ^ 32

/-- The value of a 32-bit pattern read as an `int`. -/
def to_int (x : Nat) : Int :=
  if x % 2 ^ 32 < 2 ^ 31 then ((x % 2 ^ 32 : Nat) : Int) else ((x % 2 ^ 32 : Nat) : Int) - 2 ^ 32

/-! ## Error numbers (`include/uapi/asm-generic/errno-base.h`) -/

def EAGAIN : Int := 11
def ENOMEM : Int := 12
def EINVAL : Int := 22

/-! ## Timing profile -/

/-- The bound set `struct jz_efuse_strict`. -/
structure jz_efuse_strict where
  min_rd_adj : Nat
  min_rd_adj_strobe : Nat
  min_wr_adj : Nat
  min_wr_adj_strobe : Nat
  max_wr_adj_strobe : Nat
  deriving DecidableEq, Repr

/-- The timing profile `struct jz_efucfg_info`. -/
structure jz_efucfg_info where
  rd_adj : Nat
  rd_strobe : Nat
  wr_adj : Nat
  wr_strobe : Nat
  strict : jz_efuse_strict
  deriving DecidableEq, Repr

/-- The function `calculate_efuse_strict`: the five bounds derived from the clock
rate, each checked against its width; `rate` is an `unsigned long`. -/
def calculate_efuse_strict (rate : Nat) : Except Int jz_efuse_strict :=
  let mhz := u32 rate / 1000000
  let tmp1 := sub32 (add32 (mul32 6500 mhz / 1000000) 1) 1
  if tmp1 > 0xf then .error (-EINVAL) else
  let tmp2 := sub32 (add32 (mul32 35000 mhz / 1000000) 1) 5
  if tmp2 > 0xf + 0xf then .error (-EINVAL) else
  let tmp3 := sub32 (add32 (mul32 6500 mhz / 1000000) 1) 1
  if tmp3 > 0xf then .error (-EINVAL) else
  let tmp4 := sub32 (add32 (mul32 (9000000 / 1000000) mhz) 1) 1666
  if tmp4 > 0xfff + 0xf then .error (-EINVAL) else
  let tmp5 := sub32 (add32 (mul32 (11000000 / 1000000) mhz) 1) 1666
  if tmp5 > 0xfff + 0xf then .error (-EINVAL) else
  .ok { min_rd_adj := tmp1, min_rd_adj_strobe := tmp2, min_wr_adj := tmp3,
        min_wr_adj_strobe := tmp4, max_wr_adj_strobe := tmp5 }

/-- The part of `jz_init_efuse_cfginfo` that follows the call of
`calculate_efuse_strict`: the operating profile derived from the bound set `s`,
in `unsigned int` arithmetic. -/
def cfginfo_of_strict (s : jz_efuse_strict) : Except Int jz_efucfg_info :=
  let rd_adj := add32 s.min_rd_adj 0xf / 2
  let tmp := sub32 s.min_rd_adj_strobe rd_adj
  let rd_strobe := if add32 tmp 0xf / 2 < 7 then 7 else add32 tmp 0xf / 2
  if rd_strobe > 0xf then .error (-EINVAL) else
  let tmp := add32 s.min_wr_adj_strobe s.max_wr_adj_strobe / 2
  let wr_adj := if tmp < 0xf then tmp else 0xf
  let wr_strobe := sub32 tmp wr_adj
  if wr_strobe > 0xfff then .error (-EINVAL) else
  .ok { rd_adj := rd_adj, rd_strobe := rd_strobe, wr_adj := wr_adj,
        wr_strobe := wr_strobe, strict := s }

/-- The branch of `jz_init_efuse_cfginfo` on the outcome of
`calculate_efuse_strict`: a failure is answered with `-EINVAL`, a bound set is
turned into the profile. -/
def cfginfo_of_outcome : Except Int jz_efuse_strict → Except Int jz_efucfg_info
  | .error _ => .error (-EINVAL)
  | .ok s => cfginfo_of_strict s

/-- The function `jz_init_efuse_cfginfo`. -/
def jz_init_efuse_cfginfo (clk_rate : Nat) : Except Int jz_efucfg_info :=
  cfginfo_of_outcome (calculate_efuse_strict clk_rate)

/-- The clock-rate test of `jz_efuse_probe`: the rate lies in the band
185 MHz to 512 MHz. -/
def probe_clk_in_band (clk_rate : Nat) : Bool :=
  !(decide (clk_rate < 185 * 1000000) || decide (clk_rate > 512 * 1000000))

/-! ### The derivation as the specification words it, over the integers -/

/-- The read adjust of the specification: `(minimum-read-adjust + 15) / 2`. -/
def spec_rd_adj (s : jz_efuse_strict) : Int :=
  Int.tdiv ((s.min_rd_adj : Int) + 15) 2

/-- The read strobe of the specification:
`max(7, (minimum-read-strobe-bound - read-adjust + 15) / 2)`. -/
def spec_rd_strobe (s : jz_efuse_strict) : Int :=
  max 7 (Int.tdiv ((s.min_rd_adj_strobe : Int) - spec_rd_adj s + 15) 2)

/-- The average of the write-strobe bound pair. -/
def spec_wr_avg (s : jz_efuse_strict) : Int :=
  Int.tdiv ((s.min_wr_adj_strobe : Int) + (s.max_wr_adj_strobe : Int)) 2

/-- The write adjust of the specification: `min(15, average)`. -/
def spec_wr_adj (s : jz_efuse_strict) : Int := min 15 (spec_wr_avg s)

/-- The write strobe of the specification: `average - write-adjust`. -/
def spec_wr_strobe (s : jz_efuse_strict) : Int := spec_wr_avg s - spec_wr_adj s

/-! ## Transfer chunker -/

/-- The function `jz_efuse_get_skip`. -/
def jz_efuse_get_skip (size : Nat) : Nat :=
  if size ≥ 32 then 32
  else if size / 4 > 0 then (size / 4) * 4
  else size % 4

/-- The quanta taken from a remaining count by repeated `jz_efuse_get_skip`, the
way the range loops do it: at most `fuel` steps, stopping when nothing remains. -/
def chunks : Nat → Nat → List Nat
  | 0, _ => []
  | fuel + 1, remaining =>
    if remaining = 0 then []
    else jz_efuse_get_skip remaining :: chunks fuel (remaining - jz_efuse_get_skip remaining)

/-- What is left of `remaining` after at most `fuel` steps of the chunker. -/
def chunks_left : Nat → Nat → Nat
  | 0, remaining => remaining
  | fuel + 1, remaining =>
    if remaining = 0 then 0
    else chunks_left fuel (remaining - jz_efuse_get_skip remaining)

/-- A quantum of the shape the specification allows: 32, a positive multiple of 4
not above 32, or a value from 1 to 3. -/
def quantum_ok (q : Nat) : Prop :=
  q = 32 ∨ (0 < q ∧ q % 4 = 0 ∧ q ≤ 32) ∨ (1 ≤ q ∧ q ≤ 3)

/-! ## Header constants -/

/-- The constants of `jz4780_efuse.h` that the driver uses.  The register offsets
`JZ_EFUCFG`, `JZ_EFUCTRL`, `JZ_EFUSTATE` and `JZ_EFUDATA(i)` name distinct registers
and appear as the fields of the engine state instead. -/
structure Hdr where
  JZ_EFUSE_START_ADDR : Nat
  JZ_EFUSE_END_ADDR : Nat
  JZ_EFUSE_EFUCFG_RD_ADJ_MASK : Nat
  JZ_EFUSE_EFUCFG_RD_ADJ_SHIFT : Nat
  JZ_EFUSE_EFUCFG_RD_STR_MASK : Nat
  JZ_EFUSE_EFUCFG_RD_STR_SHIFT : Nat
  JZ_EFUSE_EFUCFG_WR_ADJ_MASK : Nat
  JZ_EFUSE_EFUCFG_WR_ADJ_SHIFT : Nat
  JZ_EFUSE_EFUCFG_WR_STR_MASK : Nat
  JZ_EFUSE_EFUCFG_WR_STR_SHIFT : Nat
  JZ_EFUSE_EFUCTRL_CS : Nat
  JZ_EFUSE_EFUCTRL_ADDR_MASK : Nat
  JZ_EFUSE_EFUCTRL_ADDR_SHIFT : Nat
  JZ_EFUSE_EFUCTRL_LEN_SHIFT : Nat
  JZ_EFUSE_EFUCTRL_PG_EN : Nat
  JZ_EFUSE_EFUCTRL_WR_EN : Nat
  JZ_EFUSE_EFUCTRL_RD_EN : Nat
  JZ_EFUSE_EFUSTATE_RD_DONE : Nat
  JZ_EFUSE_EFUSTATE_WR_DONE : Nat
  deriving DecidableEq, Repr

/-- The register layout of the JZ4780 programmers manual, used for worked
examples. -/
def jz4780 : Hdr where
  JZ_EFUSE_START_ADDR := 0x200
  JZ_EFUSE_END_ADDR := 0x5FF
  JZ_EFUSE_EFUCFG_RD_ADJ_MASK := 0xF
  JZ_EFUSE_EFUCFG_RD_ADJ_SHIFT := 20
  JZ_EFUSE_EFUCFG_RD_STR_MASK := 0xF
  JZ_EFUSE_EFUCFG_RD_STR_SHIFT := 16
  JZ_EFUSE_EFUCFG_WR_ADJ_MASK := 0xF
  JZ_EFUSE_EFUCFG_WR_ADJ_SHIFT := 12
  JZ_EFUSE_EFUCFG_WR_STR_MASK := 0xFFF
  JZ_EFUSE_EFUCFG_WR_STR_SHIFT := 0
  JZ_EFUSE_EFUCTRL_CS := 0x40000000
  JZ_EFUSE_EFUCTRL_ADDR_MASK := 0x1FF
  JZ_EFUSE_EFUCTRL_ADDR_SHIFT := 21
  JZ_EFUSE_EFUCTRL_LEN_SHIFT := 16
  JZ_EFUSE_EFUCTRL_PG_EN := 0x8000
  JZ_EFUSE_EFUCTRL_WR_EN := 0x2
  JZ_EFUSE_EFUCTRL_RD_EN := 0x1
  JZ_EFUSE_EFUSTATE_RD_DONE := 0x1
  JZ_EFUSE_EFUSTATE_WR_DONE := 0x2

/-- Modelled from the spec: the macro `BYTEMASK` of the missing header
`jz4780_efuse.h`, the mask of a partial word, `(1 << (8 * quantum)) - 1`. -/
def BYTEMASK (n : Nat) : Nat := (2 ^ (8 * n) - 1) % 2 ^ 32

/-! ## Engine state -/

/-- What the driver does to the outside world, in program order. -/
inductive Event where
  | writel_efucfg (v : Nat)
  | writel_efuctrl (v : Nat)
  | writel_efudata (i v : Nat)
  | readl_efustate (v : Nat)
  | mod_timer
  | gpio_set_value (v : Nat)
  deriving DecidableEq, Repr

/-- The engine instance `struct jz_efuse` together with the register window and
the power-enable line it owns.

* `efucfg`, `efuctrl`, `efudata i`: the registers `JZ_EFUCFG`, `JZ_EFUCTRL`,
  `JZ_EFUDATA(i)`;
* `efustate k`: the value that the `k`-th read of `JZ_EFUSTATE` returns, and
  `status_reads` the number of reads made so far;
* `efudata_load k`: what the fuse array has put into the data buffer registers by
  the time of the `k`-th read of `JZ_EFUSTATE`, while the driver was waiting:
  `some d` replaces their contents by `d`, `none` leaves them as the driver
  left them;
* `vddq_en_n`: the level last driven on the line `gpio_vddq_en_n` (the line is
  active low: 0 connects VDDQ, 1 disconnects it);
* `timer_pending`: whether `vddq_protect_timer` is armed;
* `log`: the events so far, oldest first. -/
structure jz_efuse where
  efucfg : Nat
  efuctrl : Nat
  efudata : Nat → Nat
  efustate : Nat → Nat
  efudata_load : Nat → Option (Nat → Nat)
  status_reads : Nat
  efucfg_info : jz_efucfg_info
  is_timer_on : Nat
  vddq_en_n : Nat
  timer_pending : Bool
  log : List Event

/-- The call `writel(v, efuse->iomem + JZ_EFUCFG)`. -/
def writel_efucfg (s : jz_efuse) (v : Nat) : jz_efuse :=
  { s with efucfg := u32 v, log := s.log ++ [Event.writel_efucfg (u32 v)] }

/-- The call `writel(v, efuse->iomem + JZ_EFUCTRL)`. -/
def writel_efuctrl (s : jz_efuse) (v : Nat) : jz_efuse :=
  { s with efuctrl := u32 v, log := s.log ++ [Event.writel_efuctrl (u32 v)] }

/-- The call `writel(v, efuse->iomem + JZ_EFUDATA(i))`. -/
def writel_efudata (s : jz_efuse) (i v : Nat) : jz_efuse :=
  { s with efudata := fun j => if j = i then u32 v else s.efudata j,
           log := s.log ++ [Event.writel_efudata i (u32 v)] }

/-- The call `readl(efuse->iomem + JZ_EFUSTATE)`: the next value of the status
stream; by then the data buffer registers hold what the fuse array has loaded
into them, if it has loaded anything. -/
def readl_efustate (s : jz_efuse) : Nat × jz_efuse :=
  (u32 (s.efustate s.status_reads),
   { s with efudata := (s.efudata_load s.status_reads).getD s.efudata,
            status_reads := s.status_reads + 1,
            log := s.log ++ [Event.readl_efustate (u32 (s.efustate s.status_reads))] })

/-! ## Power sequencer -/

/-- The function `jz_efuse_vddq_set`. -/
def jz_efuse_vddq_set (s : jz_efuse) : jz_efuse :=
  let s1 : jz_efuse :=
    if s.is_timer_on ≠ 0 then
      { s with timer_pending := true, log := s.log ++ [Event.mod_timer] }
    else s
  let v := if s1.is_timer_on ≠ 0 then 0 else 1
  { s1 with vddq_en_n := v, log := s1.log ++ [Event.gpio_set_value v] }

/-- Step 5 of `_jz_efuse_write_bytes`, "Connect VDDQ pin to 2.5V". -/
def vddq_connect (s : jz_efuse) : jz_efuse :=
  jz_efuse_vddq_set { s with is_timer_on := 1 }

/-- Step 8 of `_jz_efuse_write_bytes`, "Disconnect VDDQ pin from 2.5V". -/
def vddq_disconnect (s : jz_efuse) : jz_efuse :=
  jz_efuse_vddq_set { s with is_timer_on := 0 }

/-- Expiry of `vddq_protect_timer`, set up in `jz_efuse_probe` with the callback
`jz_efuse_vddq_set`: a pending timer is taken off the timer list and its callback
runs on the engine as it is then. -/
def timer_expiry (s : jz_efuse) : jz_efuse :=
  if s.timer_pending then jz_efuse_vddq_set { s with timer_pending := false } else s

/-- The levels driven on the enable line by the events of a log, in order. -/
def gpio_levels (l : List Event) : List Nat :=
  l.filterMap fun e => match e with
    | Event.gpio_set_value v => some v
    | _ => none

/-- The engine `t` is reached from `s` by logging further events, and the levels
those events drive on the enable line are `levels`, in order. -/
def log_extends (s t : jz_efuse) (levels : List Nat) : Prop :=
  ∃ evs, t.log = s.log ++ evs ∧ gpio_levels evs = levels

/-! ## Byte buffers -/

/-- Store of a 32-bit word at byte offset `off` of a buffer (little-endian). -/
def store_word (buf : Nat → Nat) (off w : Nat) : Nat → Nat :=
  fun j => if off ≤ j ∧ j < off + 4 then (w >>> (8 * (j - off))) % 256 else buf j

/-- Load of a 32-bit word from byte offset `off` of a buffer (little-endian). -/
def load_word (buf : Nat → Nat) (off : Nat) : Nat :=
  buf off % 256 + (buf (off + 1) % 256) * 2 ^ 8 + (buf (off + 2) % 256) * 2 ^ 16
    + (buf (off + 3) % 256) * 2 ^ 24

/-! ## Register transaction engine -/

/-- The polling loop shared by steps 3 of `_jz_efuse_read_bytes` and 7 of
`_jz_efuse_write_bytes`:
`do { tmp = readl(STATE); usleep_range(100, 200); if (timeout--) break; }
 while (!(tmp & done));`
It returns the engine and the value of `timeout` after the loop. -/
def poll_done (done : Nat) : Nat → jz_efuse → Int → jz_efuse × Int
  | 0, s, timeout => (s, timeout)
  | fuel + 1, s, timeout =>
    let r := readl_efustate s
    if timeout ≠ 0 then (r.2, timeout - 1)
    else if r.1 &&& done = 0 then poll_done done fuel r.2 (timeout - 1)
    else (r.2, timeout - 1)

/-- The result of one read transaction: the return value, the engine and the
caller's buffer. -/
structure ReadBytes where
  ret : Int
  efuse : jz_efuse
  buf : Nat → Nat

/-- Step 1 of `_jz_efuse_read_bytes`: the value written to the configuration
register, given the value `cfg` read from it. -/
def read_efucfg_value (K : Hdr) (info : jz_efucfg_info) (cfg : Nat) : Nat :=
  let tmp := cfg
  let tmp := tmp &&& not32
    (shl32 K.JZ_EFUSE_EFUCFG_RD_ADJ_MASK K.JZ_EFUSE_EFUCFG_RD_ADJ_SHIFT
      ||| shl32 K.JZ_EFUSE_EFUCFG_RD_STR_MASK K.JZ_EFUSE_EFUCFG_RD_STR_SHIFT)
  tmp ||| (shl32 info.rd_adj K.JZ_EFUSE_EFUCFG_RD_ADJ_SHIFT
      ||| shl32 info.rd_strobe K.JZ_EFUSE_EFUCFG_RD_STR_SHIFT)

/-- Step 2 of `_jz_efuse_read_bytes`: the value written to the control register,
given the value `ctrl` read from it. -/
def read_efuctrl_value (K : Hdr) (ctrl addr skip : Nat) : Nat :=
  let tmp := ctrl
  let tmp := tmp &&& not32
    (K.JZ_EFUSE_EFUCFG_RD_STR_SHIFT
      ||| shl32 K.JZ_EFUSE_EFUCTRL_ADDR_MASK K.JZ_EFUSE_EFUCTRL_ADDR_SHIFT
      ||| K.JZ_EFUSE_EFUCTRL_PG_EN ||| K.JZ_EFUSE_EFUCTRL_WR_EN
      ||| K.JZ_EFUSE_EFUCTRL_WR_EN)
  let tmp := if addr ≥ u32 (K.JZ_EFUSE_START_ADDR + 0x200)
    then tmp ||| u32 K.JZ_EFUSE_EFUCTRL_CS else tmp
  tmp ||| (shl32 addr K.JZ_EFUSE_EFUCTRL_ADDR_SHIFT
      ||| shl32 (sub32 skip 1) K.JZ_EFUSE_EFUCTRL_LEN_SHIFT
      ||| u32 K.JZ_EFUSE_EFUCTRL_RD_EN)

/-- The end of `_jz_efuse_read_bytes`: the data buffer registers copied to the
caller's buffer, whole words when `skip` is a multiple of 4, else one masked
word. -/
def read_data_out (s : jz_efuse) (mem : Nat → Nat) (off skip : Nat) : Nat → Nat :=
  if skip % 4 = 0 then
    (List.range (skip / 4)).foldl (fun b i => store_word b (off + i * 4) (s.efudata i)) mem
  else store_word mem off (s.efudata 0 &&& BYTEMASK skip)

/-- The function `_jz_efuse_read_bytes`; the pointer `buf` is the byte buffer `mem`
at offset `off`. -/
def _jz_efuse_read_bytes (K : Hdr) (s : jz_efuse) (mem : Nat → Nat) (off : Nat)
    (addr skip : Nat) : ReadBytes :=
  -- 1. Set config register
  let s := writel_efucfg s (read_efucfg_value K s.efucfg_info s.efucfg)
  -- 2. Set control register
  let s := writel_efuctrl s (read_efuctrl_value K s.efuctrl (u32 addr) skip)
  -- 3. Wait status register RD_DONE set to 1
  let p := poll_done K.JZ_EFUSE_EFUSTATE_RD_DONE 1000 s 1000
  if p.2 ≤ 0 then { ret := -EAGAIN, efuse := p.1, buf := mem }
  else { ret := 0, efuse := p.1, buf := read_data_out p.1 mem off skip }

/-! ## Write-once guard -/

/-- A `char` holding the byte `b`, promoted to `int` (sign extension), as a 32-bit
pattern. -/
def char_to_int (b : Nat) : Nat :=
  if b % 256 < 128 then b % 256 else b % 256 + 0xFFFFFF00

/-- The test `x > 0` on an `int` given as a 32-bit pattern. -/
def int_gt_zero (x : Nat) : Bool := decide (0 < x % 2 ^ 32) && decide (x % 2 ^ 32 < 2 ^ 31)

/-- The function `is_space_written`: 1 when some index below `skip` has
`(tmp[i] & buf[i]) > 0`, else 0. -/
def is_space_written (tmp buf : Nat → Nat) (skip : Nat) : Nat :=
  if (List.range skip).any fun i => int_gt_zero (char_to_int (tmp i) &&& char_to_int (buf i))
  then 1 else 0

/-! ## Program transaction -/

/-- The result of one program transaction: the return value and the engine. -/
structure WriteBytes where
  ret : Int
  efuse : jz_efuse

/-- Step 1 of `_jz_efuse_write_bytes`: the value written to the configuration
register, given the value `cfg` read from it. -/
def write_efucfg_value (K : Hdr) (info : jz_efucfg_info) (cfg : Nat) : Nat :=
  let tmp := cfg
  let tmp := tmp &&& not32
    (shl32 K.JZ_EFUSE_EFUCFG_WR_ADJ_MASK K.JZ_EFUSE_EFUCFG_WR_ADJ_SHIFT
      ||| shl32 K.JZ_EFUSE_EFUCFG_WR_STR_MASK K.JZ_EFUSE_EFUCFG_WR_STR_SHIFT)
  tmp ||| (shl32 info.wr_adj K.JZ_EFUSE_EFUCFG_WR_ADJ_SHIFT
      ||| shl32 info.wr_strobe K.JZ_EFUSE_EFUCFG_WR_STR_SHIFT)

/-- Step 2 of `_jz_efuse_write_bytes`: the bytes to program loaded into the data
buffer registers, whole words when `skip` is a multiple of 4, else one masked
word. -/
def write_data_in (s : jz_efuse) (mem : Nat → Nat) (off skip : Nat) : jz_efuse :=
  if skip % 4 = 0 then
    (List.range (skip / 4)).foldl
      (fun t i => writel_efudata t i (load_word mem (off + i * 4))) s
  else writel_efudata s 0 (load_word mem off &&& BYTEMASK skip)

/-- Step 3 of `_jz_efuse_write_bytes`: the value written to the control register,
given the value `ctrl` read from it. -/
def write_efuctrl_value (K : Hdr) (ctrl addr skip : Nat) : Nat :=
  let tmp := ctrl
  let tmp := tmp &&& not32
    (K.JZ_EFUSE_EFUCTRL_CS
      ||| shl32 K.JZ_EFUSE_EFUCTRL_ADDR_MASK K.JZ_EFUSE_EFUCTRL_ADDR_SHIFT
      ||| K.JZ_EFUSE_EFUCTRL_PG_EN
      ||| K.JZ_EFUSE_EFUCTRL_WR_EN ||| K.JZ_EFUSE_EFUCTRL_RD_EN)
  let tmp := if addr ≥ u32 (K.JZ_EFUSE_START_ADDR + 0x200)
    then tmp ||| u32 K.JZ_EFUSE_EFUCTRL_CS else tmp
  tmp ||| (shl32 addr K.JZ_EFUSE_EFUCTRL_ADDR_SHIFT
      ||| shl32 (sub32 skip 1) K.JZ_EFUSE_EFUCTRL_LEN_SHIFT)

/-- Steps 1 to 9 of `_jz_efuse_write_bytes`, the part after the write-once
guard has let the quantum through. -/
def write_bytes_program (K : Hdr) (s : jz_efuse) (mem : Nat → Nat) (off : Nat)
    (addr skip : Nat) : WriteBytes :=
  -- 1. Set config register
  let s := writel_efucfg s (write_efucfg_value K s.efucfg_info s.efucfg)
  -- 2. Write want program data to EFUSE data buffer 0-7 registers
  let s := write_data_in s mem off skip
  -- 3. Set control register, indicate want to program address, data length
  let s := writel_efuctrl s (write_efuctrl_value K s.efuctrl (u32 addr) skip)
  -- 4. Write control register PG_EN bit to 1
  let s := writel_efuctrl s (s.efuctrl ||| u32 K.JZ_EFUSE_EFUCTRL_PG_EN)
  -- 5. Connect VDDQ pin to 2.5V
  let s := vddq_connect s
  -- 6. Write control register WR_EN bit
  let s := writel_efuctrl s (s.efuctrl ||| u32 K.JZ_EFUSE_EFUCTRL_WR_EN)
  -- 7. Wait status register WR_DONE set to 1
  let p := poll_done K.JZ_EFUSE_EFUSTATE_WR_DONE 1000 s 1000
  -- 8. Disconnect VDDQ pin from 2.5V
  let s := vddq_disconnect p.1
  -- 9. Write control register PG_EN bit to 0
  let s := writel_efuctrl s (s.efuctrl &&& not32 K.JZ_EFUSE_EFUCTRL_PG_EN)
  if p.2 ≤ 0 then { ret := -EAGAIN, efuse := s } else { ret := 0, efuse := s }

/-- The function `_jz_efuse_write_bytes`; the pointer `buf` is the byte buffer
`mem` at offset `off`, and `junk` is what the automatic array `tmp_buf` holds
before the read-back fills it. -/
def _jz_efuse_write_bytes (K : Hdr) (s : jz_efuse) (junk : Nat → Nat)
    (mem : Nat → Nat) (off : Nat) (addr skip : Nat) : WriteBytes :=
  let r := _jz_efuse_read_bytes K s junk 0 addr skip
  if r.ret < 0 then { ret := -EINVAL, efuse := r.efuse } else
  if is_space_written r.buf (fun i => mem (off + i)) skip ≠ 0 then
    { ret := -EINVAL, efuse := r.efuse }
  else write_bytes_program K r.efuse mem off addr skip

/-! ## Range loops -/

/-- The result of a range loop: the return value, the engine, the buffer and the
file position `*l`. -/
structure Range where
  ret : Int
  efuse : jz_efuse
  buf : Nat → Nat
  l : Int

/-- The `for` loop of `_jz_efuse_read`, from the test of its condition, with at
most `fuel` iterations; `none` when the fuel runs out. -/
def read_loop (K : Hdr) (size start : Nat) :
    Nat → jz_efuse → (Nat → Nat) → Int → Nat → Nat → Nat → Option Range
  | 0, _, _, _, _, _, _ => none
  | fuel + 1, s, buf, l, bytes, addr, skip =>
    if addr < add32 start size then
      let r := _jz_efuse_read_bytes K s buf bytes addr skip
      if r.ret < 0 then some { ret := -1, efuse := r.efuse, buf := r.buf, l := l }
      else
        let bytes1 := add32 bytes skip
        read_loop K size start fuel r.efuse r.buf (l + skip) bytes1 (add32 addr skip)
          (jz_efuse_get_skip (sub32 size bytes1))
    else some { ret := to_int bytes, efuse := s, buf := buf, l := l }

/-- The function `_jz_efuse_read`; `l` is the file position `*l`. -/
def _jz_efuse_read (K : Hdr) (s : jz_efuse) (buf : Nat → Nat) (size : Nat) (l : Int) :
    Option Range :=
  let start := (l % 2 ^ 32).toNat
  read_loop K (u32 size) start (u32 size + 1) s buf l 0 start
    (jz_efuse_get_skip (sub32 (u32 size) 0))

/-- The `for` loop of `_jz_efuse_write`, from the test of its condition, with at
most `fuel` iterations; `none` when the fuel runs out. -/
def write_loop (K : Hdr) (junk : Nat → Nat) (buf : Nat → Nat) (size start : Nat) :
    Nat → jz_efuse → Int → Nat → Nat → Nat → Option Range
  | 0, _, _, _, _, _ => none
  | fuel + 1, s, l, bytes, addr, skip =>
    if addr < add32 start size then
      let r := _jz_efuse_write_bytes K s junk buf bytes addr skip
      if r.ret < 0 then some { ret := -1, efuse := r.efuse, buf := buf, l := l }
      else
        let bytes1 := add32 bytes skip
        write_loop K junk buf size start fuel r.efuse (l + skip) bytes1 (add32 addr skip)
          (jz_efuse_get_skip (sub32 size bytes1))
    else some { ret := to_int bytes, efuse := s, buf := buf, l := l }

/-- The function `_jz_efuse_write`; `l` is the file position `*l`. -/
def _jz_efuse_write (K : Hdr) (s : jz_efuse) (junk : Nat → Nat) (buf : Nat → Nat)
    (size : Nat) (l : Int) : Option Range :=
  let start := (l % 2 ^ 32).toNat
  write_loop K junk buf (u32 size) start (u32 size + 1) s l 0 start
    (jz_efuse_get_skip (sub32 (u32 size) 0))

/-! ## File operations -/

/-- Reduction of an integer to a `long long` (two's complement, 64 bits). -/
def s64 (x : Int) : Int := (x + 9223372036854775808) % 18446744073709551616 - 9223372036854775808

/-- The test `size > (JZ_EFUSE_END_ADDR - (JZ_EFUSE_START_ADDR + *lpos) + 1)` that
opens `jz_efuse_read` and `jz_efuse_write`: `size` is a `size_t`, `*lpos` a
`loff_t`, so the right-hand side and the comparison are in `long long`. -/
def beyond_efuse (K : Hdr) (size : Nat) (lpos : Int) : Bool :=
  decide ((u32 size : Int) >
    s64 (s64 ((K.JZ_EFUSE_END_ADDR : Int) - s64 ((K.JZ_EFUSE_START_ADDR : Int) + lpos)) + 1))

/-- The end of `jz_efuse_read` and `jz_efuse_write`, after the range loop has
returned: `-1` when the loop failed, else its byte count; `out` is the user
buffer as the call leaves it on success. -/
def file_op_finish (user : Nat → Nat) (out : Range → Nat → Nat) : Option Range → Option Range
  | none => none
  | some r =>
    if r.ret < 0 then some { ret := -1, efuse := r.efuse, buf := user, l := r.l }
    else some { ret := r.ret, efuse := r.efuse, buf := out r, l := r.l }

/-- The function `jz_efuse_read`, for a call whose `devm_kzalloc` succeeds (the
buffer starts zeroed); the result buffer is what `copy_to_user` hands over. -/
def jz_efuse_read (K : Hdr) (s : jz_efuse) (user : Nat → Nat) (size : Nat) (lpos : Int) :
    Option Range :=
  if beyond_efuse K size lpos then
    some { ret := -EINVAL, efuse := s, buf := user, l := lpos }
  else
    file_op_finish user (fun r j => if (j : Int) < r.ret then r.buf j else user j)
      (_jz_efuse_read K s (fun _ => 0) size lpos)

/-- The function `jz_efuse_write`; `alloc_ok` tells whether `devm_kzalloc`
succeeds, and `user` is the caller's data, copied by `copy_from_user`. -/
def jz_efuse_write (K : Hdr) (s : jz_efuse) (junk : Nat → Nat) ( alloc_ok : Bool)
    (user : Nat → Nat) (size : Nat) (lpos : Int) : Option Range :=
  if beyond_efuse K size lpos then
    some { ret := -EINVAL, efuse := s, buf := user, l := lpos }
  else if !alloc_ok then
    some { ret := -ENOMEM, efuse := s, buf := user, l := lpos }
  else
    file_op_finish user (fun _ => user)
      (_jz_efuse_write K s junk (fun j => if j < u32 size then user j else 0) size lpos)

/-! ## The range loops as the specification words them -/

/-- One quantum transaction of a range request: the fuse address, the offset in
the caller's buffer and the quantum. -/
structure Transaction where
  addr : Nat
  off : Nat
  skip : Nat
  deriving DecidableEq, Repr

/-- The transactions that the specification prescribes for a request starting at
`start`: one per quantum, in order, each at `start` plus the sum `done` of the
quanta before it. -/
def transactions (start : Nat) : Nat → List Nat → List Transaction
  | _, [] => []
  | done, q :: qs =>
    { addr := start + done, off := done, skip := q } :: transactions start (done + q) qs

/-- The read transactions of a list, issued one after the other; `none` as soon
as one of them fails. -/
def read_all (K : Hdr) :
    jz_efuse → (Nat → Nat) → List Transaction → Option (jz_efuse × (Nat → Nat))
  | s, buf, [] => some (s, buf)
  | s, buf, t :: ts =>
    if (_jz_efuse_read_bytes K s buf t.off t.addr t.skip).ret < 0 then none
    else read_all K (_jz_efuse_read_bytes K s buf t.off t.addr t.skip).efuse
      (_jz_efuse_read_bytes K s buf t.off t.addr t.skip).buf ts

/-- The program transactions of a list, issued one after the other; `none` as
soon as one of them fails. -/
def write_all (K : Hdr) (junk buf : Nat → Nat) : jz_efuse → List Transaction → Option jz_efuse
  | s, [] => some s
  | s, t :: ts =>
    if (_jz_efuse_write_bytes K s junk buf t.off t.addr t.skip).ret < 0 then none
    else write_all K junk buf (_jz_efuse_write_bytes K s junk buf t.off t.addr t.skip).efuse ts

/-! ## Fields of the control register -/

/-- Modelled from the spec: the width of the length field of the control register,
which the missing header `jz4780_efuse.h` would give and the driver never uses.
The field holds byte-count - 1 of a quantum of 1 to 32 bytes: five bits from
`JZ_EFUSE_EFUCTRL_LEN_SHIFT` up. -/
def efuctrl_len (K : Hdr) (v : Nat) : Nat := (v >>> K.JZ_EFUSE_EFUCTRL_LEN_SHIFT) % 32

/-- The address field of a control-register value. -/
def efuctrl_addr (K : Hdr) (v : Nat) : Nat :=
  (v >>> K.JZ_EFUSE_EFUCTRL_ADDR_SHIFT) &&& K.JZ_EFUSE_EFUCTRL_ADDR_MASK

/-- The bits that step 2 of `_jz_efuse_read_bytes` clears in the control register
before it sets the new fields. -/
def read_efuctrl_cleared (K : Hdr) : Nat :=
  K.JZ_EFUSE_EFUCFG_RD_STR_SHIFT
    ||| shl32 K.JZ_EFUSE_EFUCTRL_ADDR_MASK K.JZ_EFUSE_EFUCTRL_ADDR_SHIFT
    ||| K.JZ_EFUSE_EFUCTRL_PG_EN ||| K.JZ_EFUSE_EFUCTRL_WR_EN
    ||| K.JZ_EFUSE_EFUCTRL_WR_EN

/-! ## Worked-example data -/

/-- An engine at rest after `jz_efuse_probe` at 200 MHz: supply flag clear, enable
line inactive, timer idle, registers zero except for data register 0, a status
register that never reports a done bit and a fuse array that loads nothing. -/
def idle_engine (data0 : Nat) : jz_efuse where
  efucfg := 0
  efuctrl := 0
  efudata := fun i => if i = 0 then data0 else 0
  efustate := fun _ => 0
  efudata_load := fun _ => none
  status_reads := 0
  efucfg_info :=
    { rd_adj := 8, rd_strobe := 7, wr_adj := 15, wr_strobe := 320,
      strict := { min_rd_adj := 1, min_rd_adj_strobe := 3, min_wr_adj := 1,
                  min_wr_adj_strobe := 135, max_wr_adj_strobe := 535 } }
  is_timer_on := 0
  vddq_en_n := 1
  timer_pending := false
  log := []

/-- The engine `idle_engine data0` with a status register that shows both done
bits at every read. -/
def ready_engine (data0 : Nat) : jz_efuse :=
  { idle_engine data0 with efustate := fun _ => 3 }

/-- An engine over a blank fuse array: as `ready_engine 0`, and every read
transaction finds all-zero contents loaded into the data buffer registers. -/
def blank_engine : jz_efuse :=
  { idle_engine 0 with efustate := fun _ => 3, efudata_load := fun _ => some (fun _ => 0) }

/-- A byte buffer given by the list of its first bytes, zero beyond. -/
def bytes_of (l : List Nat) : Nat → Nat := fun i => l.getD i 0

/-! # Theorems -/

/-! ## 32-bit arithmetic without wrap-around -/

theorem add32_of_lt {a b : Nat} (h : a + b < 4294967296) : add32 a b = a + b := by
  unfold add32; omega

theorem sub32_of_le {a b : Nat} (h : b ≤ a) (ha : a < 4294967296) : sub32 a b = a - b := by
  unfold sub32; omega

theorem sub32_of_gt {a b : Nat} (h : a < b) (hb : b < 4294967296) :
    sub32 a b = a + 4294967296 - b := by
  unfold sub32; omega

theorem mul32_of_lt {a b : Nat} (h : a * b < 4294967296) : mul32 a b = a * b := by
  unfold mul32; omega

/-! ## Timing profile -/

theorem calculate_efuse_strict_in_band (rate : Nat) (hlo : 185000000 ≤ rate)
    (hhi : rate ≤ 512000000) :
    ∃ t, calculate_efuse_strict rate = .ok t ∧ 1 ≤ t.min_rd_adj ∧ t.min_rd_adj ≤ 3 ∧
      2 ≤ t.min_rd_adj_strobe ∧ t.min_rd_adj_strobe ≤ 13 ∧
      t.min_wr_adj_strobe ≤ 2943 ∧ 370 ≤ t.max_wr_adj_strobe ∧ t.max_wr_adj_strobe ≤ 3967 := by
  have h1 : 185 ≤ u32 rate / 1000000 := by unfold u32; omega
  have h2 : u32 rate / 1000000 ≤ 512 := by unfold u32; omega
  simp only [calculate_efuse_strict, EINVAL]
  generalize u32 rate / 1000000 = r at h1 h2
  have m1 : mul32 6500 r = 6500 * r := mul32_of_lt (by omega)
  have m2 : mul32 35000 r = 35000 * r := mul32_of_lt (by omega)
  have m3 : mul32 (9000000 / 1000000) r = 9 * r := mul32_of_lt (by omega)
  have m4 : mul32 (11000000 / 1000000) r = 11 * r := mul32_of_lt (by omega)
  rw [m1, m2, m3, m4]
  have a1 : add32 (6500 * r / 1000000) 1 = 6500 * r / 1000000 + 1 := add32_of_lt (by omega)
  have a2 : add32 (35000 * r / 1000000) 1 = 35000 * r / 1000000 + 1 := add32_of_lt (by omega)
  have a3 : add32 (9 * r) 1 = 9 * r + 1 := add32_of_lt (by omega)
  have a4 : add32 (11 * r) 1 = 11 * r + 1 := add32_of_lt (by omega)
  rw [a1, a2, a3, a4]
  have s1 : sub32 (6500 * r / 1000000 + 1) 1 = 6500 * r / 1000000 :=
    (sub32_of_le (by omega) (by omega)).trans (by omega)
  have s2 : sub32 (35000 * r / 1000000 + 1) 5 = 35000 * r / 1000000 - 4 :=
    (sub32_of_le (by omega) (by omega)).trans (by omega)
  have s3 : sub32 (9 * r + 1) 1666 = 9 * r - 1665 :=
    (sub32_of_le (by omega) (by omega)).trans (by omega)
  have s4 : sub32 (11 * r + 1) 1666 = 11 * r - 1665 :=
    (sub32_of_le (by omega) (by omega)).trans (by omega)
  rw [s1, s2, s3, s4]
  rw [if_neg (by omega), if_neg (by omega), if_neg (by omega), if_neg (by omega),
    if_neg (by omega)]
  refine ⟨_, rfl, ?_⟩
  dsimp only
  omega

theorem cfginfo_of_strict_eq (s : jz_efuse_strict)
    (h1 : s.min_rd_adj ≤ 0xf) (h2 : s.min_rd_adj_strobe ≤ 0xf + 0xf)
    (h3 : s.min_wr_adj_strobe ≤ 0xfff + 0xf) (h4 : s.max_wr_adj_strobe ≤ 0xfff + 0xf) :
    cfginfo_of_strict s =
      if max 7 ((s.min_rd_adj_strobe + 15 - (s.min_rd_adj + 15) / 2) / 2) > 0xf then
        .error (-EINVAL)
      else if (s.min_wr_adj_strobe + s.max_wr_adj_strobe) / 2
          - min 15 ((s.min_wr_adj_strobe + s.max_wr_adj_strobe) / 2) > 0xfff then
        .error (-EINVAL)
      else .ok
        { rd_adj := (s.min_rd_adj + 15) / 2
          rd_strobe := max 7 ((s.min_rd_adj_strobe + 15 - (s.min_rd_adj + 15) / 2) / 2)
          wr_adj := min 15 ((s.min_wr_adj_strobe + s.max_wr_adj_strobe) / 2)
          wr_strobe := (s.min_wr_adj_strobe + s.max_wr_adj_strobe) / 2
            - min 15 ((s.min_wr_adj_strobe + s.max_wr_adj_strobe) / 2)
          strict := s } := by
  obtain ⟨a, b, c, d, e⟩ := s
  simp only at h1 h2 h3 h4
  have e1 : add32 a 0xf = a + 15 := add32_of_lt (by omega)
  have e2 : add32 (sub32 b ((a + 15) / 2)) 0xf = b + 15 - (a + 15) / 2 := by
    unfold add32 sub32; omega
  have e3 : add32 d e = d + e := add32_of_lt (by omega)
  have e4 : (if (d + e) / 2 < 0xf then (d + e) / 2 else 0xf) = min 15 ((d + e) / 2) := by
    split_ifs <;> omega
  have e5 : sub32 ((d + e) / 2) (min 15 ((d + e) / 2))
      = (d + e) / 2 - min 15 ((d + e) / 2) := sub32_of_le (by omega) (by omega)
  have e6 : (if (b + 15 - (a + 15) / 2) / 2 < 7 then 7 else (b + 15 - (a + 15) / 2) / 2)
      = max 7 ((b + 15 - (a + 15) / 2) / 2) := by
    split_ifs <;> omega
  simp only [cfginfo_of_strict, e1, e2, e3, e4, e5, e6]

theorem jz_init_efuse_cfginfo_of_strict (rate : Nat) (s : jz_efuse_strict)
    (h : calculate_efuse_strict rate = .ok s) :
    jz_init_efuse_cfginfo rate = cfginfo_of_strict s := by
  rw [jz_init_efuse_cfginfo, h, cfginfo_of_outcome]

/-- Claim C6.  For every bound set within the widths that `calculate_efuse_strict`
accepts, the profile that `jz_init_efuse_cfginfo` derives from it equals the
formulas of the specification read over the integers with truncating division:
read adjust `(min_rd_adj + 15) / 2`, read strobe
`max(7, (min_rd_adj_strobe - rd_adj + 15) / 2)`, write adjust `min(15, avg)` and
write strobe `avg - wr_adj`; the derivation fails exactly when that read strobe
exceeds `0xf` or that write strobe exceeds `0xfff`, and succeeds otherwise.  The
32-bit wrap-around of `min_rd_adj_strobe - rd_adj` leaves the result unchanged. -/
theorem C6_derivation_matches_formulas (s : jz_efuse_strict)
    (h1 : s.min_rd_adj ≤ 0xf) (h2 : s.min_rd_adj_strobe ≤ 0xf + 0xf)
    (h3 : s.min_wr_adj_strobe ≤ 0xfff + 0xf) (h4 : s.max_wr_adj_strobe ≤ 0xfff + 0xf) :
    (∀ info, cfginfo_of_strict s = .ok info →
        (info.rd_adj : Int) = spec_rd_adj s ∧ (info.rd_strobe : Int) = spec_rd_strobe s ∧
        (info.wr_adj : Int) = spec_wr_adj s ∧ (info.wr_strobe : Int) = spec_wr_strobe s ∧
        info.strict = s) ∧
    ((∃ e, cfginfo_of_strict s = .error e) ↔
        (spec_rd_strobe s > 0xf ∨ spec_wr_strobe s > 0xfff)) ∧
    (¬ (spec_rd_strobe s > 0xf ∨ spec_wr_strobe s > 0xfff) →
        ∃ info, cfginfo_of_strict s = .ok info) ∧
    (∀ rate, calculate_efuse_strict rate = .ok s →
        jz_init_efuse_cfginfo rate = cfginfo_of_strict s) := by
  have key := cfginfo_of_strict_eq s h1 h2 h3 h4
  obtain ⟨a, b, c, d, e⟩ := s
  simp only at h1 h2 h3 h4 key
  have t1 : spec_rd_adj ⟨a, b, c, d, e⟩ = (((a + 15) / 2 : Nat) : Int) := by
    simp only [spec_rd_adj]
    rw [Int.tdiv_eq_ediv (by omega) (by omega)]
    omega
  have t2 : spec_rd_strobe ⟨a, b, c, d, e⟩
      = ((max 7 ((b + 15 - (a + 15) / 2) / 2) : Nat) : Int) := by
    simp only [spec_rd_strobe, t1]
    rw [Int.tdiv_eq_ediv (by omega) (by omega)]
    omega
  have t3 : spec_wr_avg ⟨a, b, c, d, e⟩ = (((d + e) / 2 : Nat) : Int) := by
    simp only [spec_wr_avg]
    rw [Int.tdiv_eq_ediv (by omega) (by omega)]
    omega
  have t4 : spec_wr_adj ⟨a, b, c, d, e⟩ = ((min 15 ((d + e) / 2) : Nat) : Int) := by
    simp only [spec_wr_adj, t3]
    omega
  have t5 : spec_wr_strobe ⟨a, b, c, d, e⟩
      = (((d + e) / 2 - min 15 ((d + e) / 2) : Nat) : Int) := by
    simp only [spec_wr_strobe, t3, t4]
    omega
  rw [t1, t2, t4, t5, key]
  refine ⟨?_, ?_, ?_, ?_⟩
  · intro info h
    split_ifs at h with c1 c2
    · injection h with h
      subst h
      exact ⟨rfl, rfl, rfl, rfl, rfl⟩
  · constructor
    · rintro ⟨err, h⟩
      split_ifs at h with c1 c2
      · left; omega
      · right; omega
    · intro h
      split_ifs with c1 c2
      · exact ⟨_, rfl⟩
      · exact ⟨_, rfl⟩
      · omega
  · intro h
    split_ifs with c1 c2
    · omega
    · omega
    · exact ⟨_, rfl⟩
  · intro rate hr
    rw [← key]
    exact jz_init_efuse_cfginfo_of_strict rate _ hr

/-- A bound set accepted for 200 MHz, with the profile derived from it. -/
theorem C6_derivation_matches_formulas_witness :
    (∀ info, cfginfo_of_strict ⟨1, 3, 1, 135, 535⟩ = .ok info →
        (info.rd_adj : Int) = spec_rd_adj ⟨1, 3, 1, 135, 535⟩ ∧
        (info.rd_strobe : Int) = spec_rd_strobe ⟨1, 3, 1, 135, 535⟩ ∧
        (info.wr_adj : Int) = spec_wr_adj ⟨1, 3, 1, 135, 535⟩ ∧
        (info.wr_strobe : Int) = spec_wr_strobe ⟨1, 3, 1, 135, 535⟩ ∧
        info.strict = ⟨1, 3, 1, 135, 535⟩) ∧
    cfginfo_of_strict ⟨1, 3, 1, 135, 535⟩ = .ok ⟨8, 7, 15, 320, ⟨1, 3, 1, 135, 535⟩⟩ ∧
    calculate_efuse_strict 200000000 = .ok ⟨1, 3, 1, 135, 535⟩ :=
  ⟨(C6_derivation_matches_formulas ⟨1, 3, 1, 135, 535⟩ (by decide) (by decide) (by decide)
      (by decide)).1, rfl, rfl⟩

theorem probe_clk_in_band_iff (clk_rate : Nat) :
    probe_clk_in_band clk_rate = true ↔ 185000000 ≤ clk_rate ∧ clk_rate ≤ 512000000 := by
  simp only [probe_clk_in_band, Bool.not_eq_true', Bool.or_eq_false_iff, decide_eq_false_iff_not]
  omega

/-- Claim C5.  For every clock rate in the band 185 MHz to 512 MHz for which the
five bound checks of `calculate_efuse_strict` pass, `jz_init_efuse_cfginfo`
returns success and the derived fields fit their widths: read adjust, read strobe
and write adjust at most `0xf`, write strobe at most `0xfff`. -/
theorem C5_profile_within_widths (rate : Nat) (hlo : 185000000 ≤ rate)
    (hhi : rate ≤ 512000000) (t : jz_efuse_strict)
    (ht : calculate_efuse_strict rate = .ok t) :
    probe_clk_in_band rate = true ∧
    ∃ info, jz_init_efuse_cfginfo rate = .ok info ∧ info.strict = t ∧
      info.rd_adj ≤ 0xf ∧ info.rd_strobe ≤ 0xf ∧ info.wr_adj ≤ 0xf ∧
      info.wr_strobe ≤ 0xfff := by
  obtain ⟨t', ht', b1, b2, b3, b4, b5, b6, b7⟩ := calculate_efuse_strict_in_band rate hlo hhi
  rw [ht] at ht'
  injection ht' with ht'
  subst ht'
  have key := cfginfo_of_strict_eq t (by omega) (by omega) (by omega) (by omega)
  rw [jz_init_efuse_cfginfo_of_strict rate t ht, key]
  rw [if_neg (by omega), if_neg (by omega)]
  refine ⟨(probe_clk_in_band_iff rate).2 ⟨hlo, hhi⟩, _, rfl, rfl, ?_⟩
  dsimp only
  omega

/-- The profile derived at 200 MHz. -/
theorem C5_profile_within_widths_witness :
    probe_clk_in_band 200000000 = true ∧
    ∃ info, jz_init_efuse_cfginfo 200000000 = .ok info ∧
      info.strict = ⟨1, 3, 1, 135, 535⟩ ∧
      info.rd_adj ≤ 0xf ∧ info.rd_strobe ≤ 0xf ∧ info.wr_adj ≤ 0xf ∧
      info.wr_strobe ≤ 0xfff :=
  C5_profile_within_widths 200000000 (by decide) (by decide) ⟨1, 3, 1, 135, 535⟩ rfl

/-! ## Transfer chunker -/

theorem jz_efuse_get_skip_pos {m : Nat} (h : 0 < m) : 0 < jz_efuse_get_skip m := by
  unfold jz_efuse_get_skip
  split_ifs <;> omega

theorem jz_efuse_get_skip_le (m : Nat) : jz_efuse_get_skip m ≤ m := by
  unfold jz_efuse_get_skip
  split_ifs <;> omega

theorem jz_efuse_get_skip_shape {m : Nat} (h : 0 < m) : quantum_ok (jz_efuse_get_skip m) := by
  unfold jz_efuse_get_skip quantum_ok
  split_ifs <;> omega

theorem chunks_spec (fuel : Nat) :
    ∀ n, n ≤ fuel →
      chunks_left fuel n = 0 ∧ (chunks fuel n).sum = n ∧ ∀ q ∈ chunks fuel n, quantum_ok q := by
  induction fuel with
  | zero =>
    intro n hn
    have : n = 0 := by omega
    subst this
    simp [chunks, chunks_left]
  | succ fuel ih =>
    intro n hn
    by_cases h0 : n = 0
    · subst h0
      simp [chunks, chunks_left]
    · have hpos := jz_efuse_get_skip_pos (Nat.pos_of_ne_zero h0)
      have hle := jz_efuse_get_skip_le n
      obtain ⟨i1, i2, i3⟩ := ih (n - jz_efuse_get_skip n) (by omega)
      simp only [chunks, chunks_left, if_neg h0, List.sum_cons, List.mem_cons]
      refine ⟨i1, by omega, ?_⟩
      rintro q (rfl | hq)
      · exact jz_efuse_get_skip_shape (Nat.pos_of_ne_zero h0)
      · exact i3 q hq

theorem chunks_fuel (fuel : Nat) :
    ∀ n more, n ≤ fuel → chunks (fuel + more) n = chunks fuel n := by
  induction fuel with
  | zero =>
    intro n more hn
    have : n = 0 := by omega
    subst this
    cases more <;> simp [chunks]
  | succ fuel ih =>
    intro n more hn
    by_cases h0 : n = 0
    · subst h0
      simp [chunks, Nat.add_right_comm]
    · have hpos := jz_efuse_get_skip_pos (Nat.pos_of_ne_zero h0)
      rw [Nat.add_right_comm]
      simp only [chunks, if_neg h0]
      rw [ih _ more (by omega)]

/-- Claim C7.  For every byte count `n`: the quantum is positive and not above
the remaining count whenever something remains, so the chunker loop, started
from `n`, stops with nothing left after at most `n` steps (more fuel yields the
same sequence); the quanta sum to exactly `n`; and each quantum is 32, a positive
multiple of 4 not above 32, or a value from 1 to 3. -/
theorem C7_chunker_covers (n : Nat) :
    (∀ m, 0 < m → 0 < jz_efuse_get_skip m ∧ jz_efuse_get_skip m ≤ m) ∧
    chunks_left n n = 0 ∧
    (∀ more, chunks (n + more) n = chunks n n) ∧
    (chunks n n).sum = n ∧
    ∀ q ∈ chunks n n, quantum_ok q := by
  obtain ⟨i1, i2, i3⟩ := chunks_spec n n (Nat.le_refl n)
  exact ⟨fun m hm => ⟨jz_efuse_get_skip_pos hm, jz_efuse_get_skip_le m⟩, i1,
    fun more => chunks_fuel n n more (Nat.le_refl n), i2, i3⟩

/-! ## Polling loop -/

theorem poll_done_budget (done fuel : Nat) (s : jz_efuse) :
    poll_done done (fuel + 1) s 1000 = ((readl_efustate s).2, 999) := by
  rw [poll_done]
  simp

theorem read_bytes_eq (K : Hdr) (s : jz_efuse) (mem : Nat → Nat) (off addr skip : Nat) :
    _jz_efuse_read_bytes K s mem off addr skip =
      { ret := 0
        efuse := (readl_efustate (writel_efuctrl
          (writel_efucfg s (read_efucfg_value K s.efucfg_info s.efucfg))
          (read_efuctrl_value K s.efuctrl (u32 addr) skip))).2
        buf := read_data_out (readl_efustate (writel_efuctrl
          (writel_efucfg s (read_efucfg_value K s.efucfg_info s.efucfg))
          (read_efuctrl_value K s.efuctrl (u32 addr) skip))).2 mem off skip } := by
  simp only [_jz_efuse_read_bytes, poll_done_budget _ 999]
  rw [if_neg (by decide)]
  rfl

theorem and_not32_and (x p : Nat) : u32 (x &&& not32 p) &&& p = 0 := by
  apply Nat.eq_of_testBit_eq
  intro i
  have h : (0xFFFFFFFF : Nat) = 2 ^ 32 - 1 := by norm_num
  simp only [u32, not32, h, Nat.testBit_and, Nat.testBit_mod_two_pow, Nat.testBit_xor,
    Nat.testBit_two_pow_sub_one, Nat.zero_testBit]
  by_cases hi : i < 32 <;> cases x.testBit i <;> cases p.testBit i <;> simp [hi]

/-! ## Event log of the primitives -/

theorem log_extends_refl (s : jz_efuse) : log_extends s s [] :=
  ⟨[], by simp, rfl⟩

theorem log_extends_writel_efucfg {s t : jz_efuse} {l : List Nat} (h : log_extends s t l)
    (v : Nat) : log_extends s (writel_efucfg t v) l := by
  obtain ⟨evs, h1, h2⟩ := h
  exact ⟨evs ++ [Event.writel_efucfg (u32 v)], by simp [writel_efucfg, h1],
    by simp [gpio_levels, List.filterMap_append] at h2 ⊢; exact h2⟩

theorem log_extends_writel_efuctrl {s t : jz_efuse} {l : List Nat} (h : log_extends s t l)
    (v : Nat) : log_extends s (writel_efuctrl t v) l := by
  obtain ⟨evs, h1, h2⟩ := h
  exact ⟨evs ++ [Event.writel_efuctrl (u32 v)], by simp [writel_efuctrl, h1],
    by simp [gpio_levels, List.filterMap_append] at h2 ⊢; exact h2⟩

theorem log_extends_writel_efudata {s t : jz_efuse} {l : List Nat} (h : log_extends s t l)
    (i v : Nat) : log_extends s (writel_efudata t i v) l := by
  obtain ⟨evs, h1, h2⟩ := h
  exact ⟨evs ++ [Event.writel_efudata i (u32 v)], by simp [writel_efudata, h1],
    by simp [gpio_levels, List.filterMap_append] at h2 ⊢; exact h2⟩

theorem log_extends_readl_efustate {s t : jz_efuse} {l : List Nat} (h : log_extends s t l) :
    log_extends s (readl_efustate t).2 l := by
  obtain ⟨evs, h1, h2⟩ := h
  exact ⟨evs ++ [Event.readl_efustate (u32 (t.efustate t.status_reads))],
    by simp [readl_efustate, h1],
    by simp [gpio_levels, List.filterMap_append] at h2 ⊢; exact h2⟩

theorem log_extends_vddq_connect {s t : jz_efuse} {l : List Nat} (h : log_extends s t l) :
    log_extends s (vddq_connect t) (l ++ [0]) := by
  obtain ⟨evs, h1, h2⟩ := h
  exact ⟨evs ++ [Event.mod_timer, Event.gpio_set_value 0],
    by simp [vddq_connect, jz_efuse_vddq_set, h1],
    by simp [gpio_levels, List.filterMap_append] at h2 ⊢; exact h2⟩

theorem log_extends_vddq_disconnect {s t : jz_efuse} {l : List Nat} (h : log_extends s t l) :
    log_extends s (vddq_disconnect t) (l ++ [1]) := by
  obtain ⟨evs, h1, h2⟩ := h
  exact ⟨evs ++ [Event.gpio_set_value 1],
    by simp [vddq_disconnect, jz_efuse_vddq_set, h1],
    by simp [gpio_levels, List.filterMap_append] at h2 ⊢; exact h2⟩

theorem log_extends_foldl_writel_efudata (f : Nat → Nat) (xs : List Nat) :
    ∀ {s t : jz_efuse} {l : List Nat}, log_extends s t l →
      log_extends s (xs.foldl (fun t i => writel_efudata t i (f i)) t) l := by
  induction xs with
  | nil => intro s t l h; exact h
  | cons i xs ih =>
    intro s t l h
    exact ih (log_extends_writel_efudata h i (f i))

theorem log_extends_write_data_in {s t : jz_efuse} {l : List Nat} (h : log_extends s t l)
    (mem : Nat → Nat) (off skip : Nat) : log_extends s (write_data_in t mem off skip) l := by
  unfold write_data_in
  split_ifs
  · exact log_extends_foldl_writel_efudata (fun i => load_word mem (off + i * 4)) _ h
  · exact log_extends_writel_efudata h _ _

/-! ## Program transaction -/

theorem write_bytes_program_eq (K : Hdr) (s0 s : jz_efuse) (l : List Nat)
    (h : log_extends s0 s l) (mem : Nat → Nat) (off addr skip : Nat) :
    ∃ c, write_bytes_program K s mem off addr skip =
        { ret := 0, efuse := writel_efuctrl c (c.efuctrl &&& not32 K.JZ_EFUSE_EFUCTRL_PG_EN) } ∧
      c.is_timer_on = 0 ∧ c.vddq_en_n = 1 ∧ log_extends s0 c (l ++ [0] ++ [1]) := by
  simp only [write_bytes_program, poll_done_budget _ 999]
  rw [if_neg (by decide)]
  refine ⟨_, rfl, ?_, ?_, ?_⟩
  · simp [vddq_disconnect, jz_efuse_vddq_set]
  · simp [vddq_disconnect, jz_efuse_vddq_set]
  · exact log_extends_vddq_disconnect (log_extends_readl_efustate (log_extends_writel_efuctrl
      (log_extends_vddq_connect (log_extends_writel_efuctrl (log_extends_writel_efuctrl
        (log_extends_write_data_in (log_extends_writel_efucfg h _) mem off skip) _) _)) _))

theorem read_bytes_ret (K : Hdr) (s : jz_efuse) (mem : Nat → Nat) (off addr skip : Nat) :
    (_jz_efuse_read_bytes K s mem off addr skip).ret = 0 := by
  rw [read_bytes_eq]

theorem read_bytes_log (K : Hdr) (s : jz_efuse) (mem : Nat → Nat) (off addr skip : Nat) :
    log_extends s (_jz_efuse_read_bytes K s mem off addr skip).efuse [] := by
  rw [read_bytes_eq]
  exact log_extends_readl_efustate (log_extends_writel_efuctrl
    (log_extends_writel_efucfg (log_extends_refl s) _) _)

theorem write_bytes_rejected (K : Hdr) (s : jz_efuse) (junk mem : Nat → Nat)
    (off addr skip : Nat)
    (h : is_space_written (_jz_efuse_read_bytes K s junk 0 addr skip).buf
      (fun i => mem (off + i)) skip ≠ 0) :
    _jz_efuse_write_bytes K s junk mem off addr skip =
      { ret := -EINVAL, efuse := (_jz_efuse_read_bytes K s junk 0 addr skip).efuse } := by
  simp only [_jz_efuse_write_bytes]
  rw [if_neg (by rw [read_bytes_ret]; decide), if_pos h]

theorem write_bytes_accepted (K : Hdr) (s : jz_efuse) (junk mem : Nat → Nat)
    (off addr skip : Nat)
    (h : is_space_written (_jz_efuse_read_bytes K s junk 0 addr skip).buf
      (fun i => mem (off + i)) skip = 0) :
    _jz_efuse_write_bytes K s junk mem off addr skip =
      write_bytes_program K (_jz_efuse_read_bytes K s junk 0 addr skip).efuse mem off addr
        skip := by
  simp only [_jz_efuse_write_bytes]
  rw [if_neg (by rw [read_bytes_ret]; decide), if_neg (by rw [h]; decide)]

/-- Claim C3.  Every call of `_jz_efuse_write_bytes` that passes the write-once
guard, whatever the status register answers, drives the enable line exactly
twice over the whole call: first active (level 0, supply raised), then inactive
(level 1, supply lowered).  On return the flag `is_timer_on` is clear, the line
was last driven inactive, and the program-enable bit of the control register is
clear. -/
theorem C3_mandatory_power_down (K : Hdr) (s : jz_efuse) (junk mem : Nat → Nat)
    (off addr skip : Nat)
    (hguard : is_space_written (_jz_efuse_read_bytes K s junk 0 addr skip).buf
      (fun i => mem (off + i)) skip = 0) :
    log_extends s (_jz_efuse_write_bytes K s junk mem off addr skip).efuse [0, 1] ∧
    (_jz_efuse_write_bytes K s junk mem off addr skip).efuse.is_timer_on = 0 ∧
    (_jz_efuse_write_bytes K s junk mem off addr skip).efuse.vddq_en_n = 1 ∧
    (_jz_efuse_write_bytes K s junk mem off addr skip).efuse.efuctrl
      &&& K.JZ_EFUSE_EFUCTRL_PG_EN = 0 := by
  rw [write_bytes_accepted K s junk mem off addr skip hguard]
  obtain ⟨c, hc, h1, h2, h3⟩ := write_bytes_program_eq K s _ []
    (read_bytes_log K s junk 0 addr skip) mem off addr skip
  rw [hc]
  refine ⟨log_extends_writel_efuctrl h3 _, ?_, ?_, ?_⟩
  · simpa [writel_efuctrl] using h1
  · simpa [writel_efuctrl] using h2
  · simp only [writel_efuctrl]
    exact and_not32_and _ _

/-- Claim C10.  When the write-once guard rejects the quantum,
`_jz_efuse_write_bytes` returns the error `-EINVAL` and the engine (configuration,
control and data buffer registers, supply flag, enable line, timer and event
log) is exactly the engine left by the read-back; over the whole call the enable
line is never driven. -/
theorem C10_rejected_program_mutates_nothing (K : Hdr) (s : jz_efuse) (junk mem : Nat → Nat)
    (off addr skip : Nat)
    (hguard : is_space_written (_jz_efuse_read_bytes K s junk 0 addr skip).buf
      (fun i => mem (off + i)) skip ≠ 0) :
    (_jz_efuse_write_bytes K s junk mem off addr skip).ret = -EINVAL ∧
    (_jz_efuse_write_bytes K s junk mem off addr skip).ret < 0 ∧
    (_jz_efuse_write_bytes K s junk mem off addr skip).efuse
      = (_jz_efuse_read_bytes K s junk 0 addr skip).efuse ∧
    log_extends s (_jz_efuse_write_bytes K s junk mem off addr skip).efuse [] := by
  rw [write_bytes_rejected K s junk mem off addr skip hguard]
  exact ⟨rfl, by simp [EINVAL], rfl, read_bytes_log K s junk 0 addr skip⟩

/-! ## Fail-safe timer -/

theorem timer_expiry_while_on (s : jz_efuse) (h1 : s.is_timer_on = 1)
    (h2 : s.timer_pending = true) :
    (timer_expiry s).is_timer_on = 1 ∧ (timer_expiry s).timer_pending = true ∧
      (timer_expiry s).vddq_en_n = 0 := by
  simp [timer_expiry, jz_efuse_vddq_set, h1, h2]

/-- Claim C4, as the code has it.  After the supply has been raised, any number of
expiries of the fail-safe timer (with no lowering in between) leaves the flag set,
the timer armed again and the enable line at the active level 0: the callback
re-arms the timer and drives the line active, it never drives it inactive. -/
theorem C4_timer_keeps_supply_raised (s : jz_efuse) (n : Nat) :
    (timer_expiry^[n] (vddq_connect s)).is_timer_on = 1 ∧
    (timer_expiry^[n] (vddq_connect s)).timer_pending = true ∧
    (timer_expiry^[n] (vddq_connect s)).vddq_en_n = 0 := by
  induction n with
  | zero => simp [vddq_connect, jz_efuse_vddq_set]
  | succ n ih =>
    rw [Function.iterate_succ_apply']
    exact timer_expiry_while_on _ ih.1 ih.2.1

/-- A guard-passing program at the worked-example engine: the quantum at `0x20`
reads back `AA BB CC DD` and the new bytes `01 00 00 00` share no bit with it. -/
theorem C3_mandatory_power_down_witness :
    is_space_written
      (_jz_efuse_read_bytes jz4780 (idle_engine 0xDDCCBBAA) (fun _ => 0) 0 0x20 4).buf
      (fun i => bytes_of [1, 0, 0, 0] (0 + i)) 4 = 0 ∧
    log_extends (idle_engine 0xDDCCBBAA) (_jz_efuse_write_bytes jz4780
      (idle_engine 0xDDCCBBAA) (fun _ => 0) (bytes_of [1, 0, 0, 0]) 0 0x20 4).efuse [0, 1] ∧
    (_jz_efuse_write_bytes jz4780 (idle_engine 0xDDCCBBAA) (fun _ => 0)
      (bytes_of [1, 0, 0, 0]) 0 0x20 4).efuse.is_timer_on = 0 ∧
    (_jz_efuse_write_bytes jz4780 (idle_engine 0xDDCCBBAA) (fun _ => 0)
      (bytes_of [1, 0, 0, 0]) 0 0x20 4).efuse.vddq_en_n = 1 ∧
    (_jz_efuse_write_bytes jz4780 (idle_engine 0xDDCCBBAA) (fun _ => 0)
      (bytes_of [1, 0, 0, 0]) 0 0x20 4).efuse.efuctrl
      &&& jz4780.JZ_EFUSE_EFUCTRL_PG_EN = 0 :=
  ⟨by decide, C3_mandatory_power_down jz4780 (idle_engine 0xDDCCBBAA) (fun _ => 0)
    (bytes_of [1, 0, 0, 0]) 0 0x20 4 (by decide)⟩

/-- A rejected program at the worked-example engine: the new bytes `02 00 00 00`
share bit 1 with the `AA` that the quantum at `0x20` reads back. -/
theorem C10_rejected_program_mutates_nothing_witness :
    is_space_written
      (_jz_efuse_read_bytes jz4780 (idle_engine 0xDDCCBBAA) (fun _ => 0) 0 0x20 4).buf
      (fun i => bytes_of [2, 0, 0, 0] (0 + i)) 4 ≠ 0 ∧
    (_jz_efuse_write_bytes jz4780 (idle_engine 0xDDCCBBAA) (fun _ => 0)
      (bytes_of [2, 0, 0, 0]) 0 0x20 4).ret = -EINVAL ∧
    (_jz_efuse_write_bytes jz4780 (idle_engine 0xDDCCBBAA) (fun _ => 0)
      (bytes_of [2, 0, 0, 0]) 0 0x20 4).efuse
      = (_jz_efuse_read_bytes jz4780 (idle_engine 0xDDCCBBAA) (fun _ => 0) 0 0x20 4).efuse :=
  ⟨by decide,
   (C10_rejected_program_mutates_nothing jz4780 (idle_engine 0xDDCCBBAA) (fun _ => 0)
    (bytes_of [2, 0, 0, 0]) 0 0x20 4 (by decide)).1,
   (C10_rejected_program_mutates_nothing jz4780 (idle_engine 0xDDCCBBAA) (fun _ => 0)
    (bytes_of [2, 0, 0, 0]) 0 0x20 4 (by decide)).2.2.1⟩

/-! ## Write-once guard -/

theorem and_high_low (a b : Nat) (ha : a < 2 ^ 8) (hb : b < 2 ^ 7) :
    (2 ^ 8 * 0xFFFFFF + a) &&& b = a &&& b := by
  apply Nat.eq_of_testBit_eq
  intro i
  rw [Nat.testBit_and, Nat.testBit_and, Nat.testBit_mul_pow_two_add _ ha]
  by_cases hi : i < 8
  · simp [hi]
  · have hb' : b.testBit i = false :=
      Nat.testBit_lt_two_pow (lt_of_lt_of_le hb (Nat.pow_le_pow_right (by decide) (by omega)))
    simp [hb']

theorem and_high_high (a b : Nat) (ha : a < 2 ^ 8) (hb : b < 2 ^ 8) :
    (2 ^ 8 * 0xFFFFFF + a) &&& (2 ^ 8 * 0xFFFFFF + b) = 2 ^ 8 * 0xFFFFFF + (a &&& b) := by
  apply Nat.eq_of_testBit_eq
  intro i
  rw [Nat.testBit_and, Nat.testBit_mul_pow_two_add _ ha, Nat.testBit_mul_pow_two_add _ hb,
    Nat.testBit_mul_pow_two_add _ (Nat.and_lt_two_pow a hb)]
  by_cases hi : i < 8
  · simp [hi]
  · simp [hi]

theorem and_ge_of_top_bits (a b : Nat) (ha : a < 2 ^ 8) (hb : b < 2 ^ 8) (ha' : 128 ≤ a)
    (hb' : 128 ≤ b) : 128 ≤ a &&& b := by
  have ta : a.testBit 7 = true := by
    rw [Nat.testBit_to_div_mod]; simp; omega
  have tb : b.testBit 7 = true := by
    rw [Nat.testBit_to_div_mod]; simp; omega
  have : (a &&& b).testBit 7 = true := by rw [Nat.testBit_and, ta, tb]; rfl
  exact Nat.testBit_implies_ge this

theorem byte_and_gt_zero (x y : Nat) :
    int_gt_zero (char_to_int x &&& char_to_int y)
      = (decide (x % 256 &&& y % 256 ≠ 0) && decide (x % 256 &&& y % 256 < 128)) := by
  have hx : x % 256 < 2 ^ 8 := Nat.mod_lt _ (by decide)
  have hy : y % 256 < 2 ^ 8 := Nat.mod_lt _ (by decide)
  simp only [char_to_int, int_gt_zero]
  rw [Bool.eq_iff_iff]
  simp only [Bool.and_eq_true, decide_eq_true_eq]
  generalize x % 256 = a at hx
  generalize y % 256 = b at hy
  have e : ∀ c : Nat, c + 0xFFFFFF00 = 2 ^ 8 * 0xFFFFFF + c := fun c => by omega
  have hv : a &&& b < 2 ^ 8 := Nat.and_lt_two_pow a hy
  by_cases ha : a < 128 <;> by_cases hb : b < 128
  · rw [if_pos ha, if_pos hb]
    have : a &&& b ≤ a := Nat.and_le_left
    omega
  · rw [if_pos ha, if_neg hb, e, Nat.and_comm, and_high_low b a hy ha, Nat.and_comm]
    have : a &&& b ≤ a := Nat.and_le_left
    omega
  · rw [if_neg ha, if_pos hb, e, and_high_low a b hx hb]
    have : a &&& b ≤ b := Nat.and_le_right
    omega
  · rw [if_neg ha, if_neg hb, e, e, and_high_high a b hx hy]
    have : 128 ≤ a &&& b := and_ge_of_top_bits a b hx hy (by omega) (by omega)
    omega

theorem is_space_written_iff (tmp buf : Nat → Nat) (skip : Nat) :
    is_space_written tmp buf skip ≠ 0 ↔
      ∃ i < skip, (tmp i % 256 &&& buf i % 256) ≠ 0 ∧ (tmp i % 256 &&& buf i % 256) < 128 := by
  unfold is_space_written
  split_ifs with h
  · simp only [List.any_eq_true, List.mem_range, byte_and_gt_zero, Bool.and_eq_true,
      decide_eq_true_eq] at h
    simpa using h
  · simp only [List.any_eq_true, List.mem_range, byte_and_gt_zero, Bool.and_eq_true,
      decide_eq_true_eq] at h
    simpa using h

/-- Claim C1, as the code has it.  `is_space_written` reports "already written"
exactly when some index below `skip` has a non-zero AND whose bit 7 is clear.
With current contents `80` and new byte `80` the two bytes share bit 7, so their
AND is non-zero, yet `is_space_written` answers 0: the AND of two `char` values
with bit 7 set is negative and fails the test `> 0`.  Likewise a second program
of the pattern `AA BB CC DD` over itself passes the guard. -/
theorem C1_guard_misses_shared_top_bit :
    (∀ (tmp buf : Nat → Nat) (skip : Nat), is_space_written tmp buf skip ≠ 0 ↔
      ∃ i < skip, (tmp i % 256 &&& buf i % 256) ≠ 0 ∧ (tmp i % 256 &&& buf i % 256) < 128) ∧
    (0x80 : Nat) < 256 ∧ (0x80 &&& 0x80 : Nat) ≠ 0 ∧
    is_space_written (bytes_of [0x80]) (bytes_of [0x80]) 1 = 0 ∧
    is_space_written (bytes_of [0xAA, 0xBB, 0xCC, 0xDD]) (bytes_of [0xAA, 0xBB, 0xCC, 0xDD]) 4
      = 0 :=
  ⟨is_space_written_iff, by decide, by decide, by decide, by decide⟩

/-! ## Timeout of the polling loops -/

theorem write_bytes_ret_accepted (K : Hdr) (s : jz_efuse) (junk mem : Nat → Nat)
    (off addr skip : Nat)
    (h : is_space_written (_jz_efuse_read_bytes K s junk 0 addr skip).buf
      (fun i => mem (off + i)) skip = 0) :
    (_jz_efuse_write_bytes K s junk mem off addr skip).ret = 0 := by
  rw [write_bytes_accepted K s junk mem off addr skip h]
  obtain ⟨c, hc, -⟩ := write_bytes_program_eq K _ _ [] (log_extends_refl _) mem off addr skip
  rw [hc]

/-- Claim C2, as the code has it.  Whatever the status register answers,
`_jz_efuse_read_bytes` reads it exactly once and returns 0, and
`_jz_efuse_write_bytes` returns 0 for every quantum that passes the guard: the
test `if (timeout--) break;` leaves the loop on the first pass with `timeout`
at 999, so the branch returning `-EAGAIN` is never taken.  At the worked-example
engine, whose status register never shows a done bit, both return 0. -/
theorem C2_poll_never_times_out :
    (∀ (K : Hdr) (s : jz_efuse) (mem : Nat → Nat) (off addr skip : Nat),
      (_jz_efuse_read_bytes K s mem off addr skip).ret = 0 ∧
      (_jz_efuse_read_bytes K s mem off addr skip).efuse.status_reads = s.status_reads + 1) ∧
    (∀ (K : Hdr) (s : jz_efuse) (junk mem : Nat → Nat) (off addr skip : Nat),
      is_space_written (_jz_efuse_read_bytes K s junk 0 addr skip).buf
        (fun i => mem (off + i)) skip = 0 →
      (_jz_efuse_write_bytes K s junk mem off addr skip).ret = 0) ∧
    (∀ k, (idle_engine 0).efustate k &&& jz4780.JZ_EFUSE_EFUSTATE_RD_DONE = 0) ∧
    (∀ k, (idle_engine 0).efustate k &&& jz4780.JZ_EFUSE_EFUSTATE_WR_DONE = 0) ∧
    (_jz_efuse_read_bytes jz4780 (idle_engine 0) (fun _ => 0) 0 0x20 4).ret = 0 ∧
    (_jz_efuse_write_bytes jz4780 (idle_engine 0) (fun _ => 0) (bytes_of [1, 0, 0, 0]) 0
      0x20 4).ret = 0 := by
  refine ⟨fun K s mem off addr skip => ⟨read_bytes_ret K s mem off addr skip, ?_⟩,
    write_bytes_ret_accepted, fun k => ?_, fun k => ?_, by decide, by decide⟩
  · rw [read_bytes_eq]
    rfl
  · simp [idle_engine]
  · simp [idle_engine]

/-! ## Range check of the file operations -/

theorem beyond_efuse_iff (K : Hdr) (size : Nat) (lpos : Int)
    (hK : K.JZ_EFUSE_START_ADDR ≤ K.JZ_EFUSE_END_ADDR)
    (hE : K.JZ_EFUSE_END_ADDR < 2147483648) (hs : size < 4294967296)
    (h0 : 0 ≤ lpos) (h1 : lpos < 9223372036854775808) :
    beyond_efuse K size lpos = true ↔
      lpos + size > (K.JZ_EFUSE_END_ADDR : Int) - K.JZ_EFUSE_START_ADDR + 1 := by
  simp only [beyond_efuse, s64, u32, decide_eq_true_eq]
  have e : ((size % 2 ^ 32 : Nat) : Int) = size := by
    have : size % 2 ^ 32 = size := Nat.mod_eq_of_lt (by omega)
    rw [this]
  rw [e]
  omega

theorem file_op_finish_ret (user : Nat → Nat) (out : Range → Nat → Nat) (x : Option Range)
    (r : Range) (h : file_op_finish user out x = some r) : r.ret = -1 ∨ 0 ≤ r.ret := by
  cases x with
  | none => simp [file_op_finish] at h
  | some y =>
    simp only [file_op_finish] at h
    split_ifs at h with c
    · injection h with h
      subst h
      exact Or.inl rfl
    · injection h with h
      subst h
      exact Or.inr (by simpa using c)

/-- Claim C8.  For every non-negative file position and every length, the test
that opens `jz_efuse_read` and `jz_efuse_write` fires exactly when
`offset + length` exceeds `JZ_EFUSE_END_ADDR - JZ_EFUSE_START_ADDR + 1`; when it
fires the call returns `-EINVAL` with the engine, the buffer and the position
untouched, and no other path of either function returns `-EINVAL`. -/
theorem C8_range_check (K : Hdr) (size : Nat) (lpos : Int)
    (hK : K.JZ_EFUSE_START_ADDR ≤ K.JZ_EFUSE_END_ADDR)
    (hE : K.JZ_EFUSE_END_ADDR < 2147483648) (hs : size < 4294967296)
    (h0 : 0 ≤ lpos) (h1 : lpos < 9223372036854775808) :
    (beyond_efuse K size lpos = true ↔
      lpos + size > (K.JZ_EFUSE_END_ADDR : Int) - K.JZ_EFUSE_START_ADDR + 1) ∧
    (∀ s user, (∃ r, jz_efuse_read K s user size lpos = some r ∧ r.ret = -EINVAL) ↔
      lpos + size > (K.JZ_EFUSE_END_ADDR : Int) - K.JZ_EFUSE_START_ADDR + 1) ∧
    (∀ s junk ok user,
      (∃ r, jz_efuse_write K s junk ok user size lpos = some r ∧ r.ret = -EINVAL) ↔
      lpos + size > (K.JZ_EFUSE_END_ADDR : Int) - K.JZ_EFUSE_START_ADDR + 1) ∧
    (lpos + size > (K.JZ_EFUSE_END_ADDR : Int) - K.JZ_EFUSE_START_ADDR + 1 →
      (∀ s user, jz_efuse_read K s user size lpos
        = some { ret := -EINVAL, efuse := s, buf := user, l := lpos }) ∧
      (∀ s junk ok user, jz_efuse_write K s junk ok user size lpos
        = some { ret := -EINVAL, efuse := s, buf := user, l := lpos })) := by
  have key := beyond_efuse_iff K size lpos hK hE hs h0 h1
  refine ⟨key, ?_, ?_, ?_⟩
  · intro s user
    rw [← key]
    constructor
    · rintro ⟨r, hr, hret⟩
      by_contra hb
      simp only [jz_efuse_read, hb] at hr
      rcases file_op_finish_ret _ _ _ r hr with h | h
      · rw [hret] at h; simp [EINVAL] at h
      · rw [hret] at h; simp [EINVAL] at h
    · intro hb
      exact ⟨_, by simp only [jz_efuse_read, hb]; rfl, rfl⟩
  · intro s junk ok user
    rw [← key]
    constructor
    · rintro ⟨r, hr, hret⟩
      by_contra hb
      simp only [jz_efuse_write, hb] at hr
      cases ok with
      | false =>
        simp at hr
        rw [← hr] at hret
        simp [EINVAL, ENOMEM] at hret
      | true =>
        simp at hr
        rcases file_op_finish_ret _ _ _ r hr with h | h
        · rw [hret] at h; simp [EINVAL] at h
        · rw [hret] at h; simp [EINVAL] at h
    · intro hb
      exact ⟨_, by simp only [jz_efuse_write, hb]; rfl, rfl⟩
  · intro hb
    rw [← key] at hb
    constructor
    · intro s user
      simp only [jz_efuse_read, hb]; rfl
    · intro s junk ok user
      simp only [jz_efuse_write, hb]; rfl

/-- The array of the JZ4780 holds `0x400` bytes: a request of 4 bytes at offset
`0x3FC` ends exactly at the array's end and passes, one of 5 bytes is rejected. -/
theorem C8_range_check_witness :
    (beyond_efuse jz4780 4 0x3FC = true ↔
      (0x3FC : Int) + (4 : Nat)
        > (jz4780.JZ_EFUSE_END_ADDR : Int) - jz4780.JZ_EFUSE_START_ADDR + 1) ∧
    beyond_efuse jz4780 4 0x3FC = false ∧ beyond_efuse jz4780 5 0x3FC = true :=
  ⟨(C8_range_check jz4780 4 0x3FC (by decide) (by decide) (by decide) (by decide)
    (by decide)).1, by decide, by decide⟩

/-! ## Re-programming a programmed quantum -/

theorem is_space_written_congr (tmp tmp' buf buf' : Nat → Nat) (skip : Nat)
    (h1 : ∀ i < skip, tmp i = tmp' i) (h2 : ∀ i < skip, buf i = buf' i) :
    is_space_written tmp buf skip = is_space_written tmp' buf' skip := by
  unfold is_space_written
  have : ((List.range skip).any fun i => int_gt_zero (char_to_int (tmp i) &&& char_to_int (buf i)))
      = ((List.range skip).any fun i =>
          int_gt_zero (char_to_int (tmp' i) &&& char_to_int (buf' i))) := by
    rw [Bool.eq_iff_iff]
    simp only [List.any_eq_true, List.mem_range]
    constructor
    · rintro ⟨i, hi, h⟩
      exact ⟨i, hi, by rw [← h1 i hi, ← h2 i hi]; exact h⟩
    · rintro ⟨i, hi, h⟩
      exact ⟨i, hi, by rw [h1 i hi, h2 i hi]; exact h⟩
  rw [this]

/-- Claim C9, as stated, fails.  At the worked-example engine the quantum at
`0x20` reads back `AA BB CC DD`; the guard lets the new bytes `01 00 00 00`
through (`AA AND 01 = 0`) and `jz_efuse_write` at offset `0x20` of 4 bytes
returns 4, not an error; so it does when the status register reports every
transaction done. -/
theorem C9_disjoint_bits_are_programmed :
    (∀ k < 4, (_jz_efuse_read_bytes jz4780 (idle_engine 0xDDCCBBAA) (fun _ => 0) 0 0x20 4).buf k
      = bytes_of [0xAA, 0xBB, 0xCC, 0xDD] k) ∧
    is_space_written
      (_jz_efuse_read_bytes jz4780 (idle_engine 0xDDCCBBAA) (fun _ => 0) 0 0x20 4).buf
      (bytes_of [0x01, 0x00, 0x00, 0x00]) 4 = 0 ∧
    (_jz_efuse_write_bytes jz4780 (idle_engine 0xDDCCBBAA) (fun _ => 0)
      (bytes_of [0x01, 0x00, 0x00, 0x00]) 0 0x20 4).ret = 0 ∧
    (jz_efuse_write jz4780 (idle_engine 0xDDCCBBAA) (fun _ => 0) true
      (bytes_of [0x01, 0x00, 0x00, 0x00]) 4 0x20).map (fun r => r.ret) = some 4 ∧
    (∀ k < 4, (_jz_efuse_read_bytes jz4780 (ready_engine 0xDDCCBBAA) (fun _ => 0) 0 0x20 4).buf k
      = bytes_of [0xAA, 0xBB, 0xCC, 0xDD] k) ∧
    (jz_efuse_write jz4780 (ready_engine 0xDDCCBBAA) (fun _ => 0) true
      (bytes_of [0x01, 0x00, 0x00, 0x00]) 4 0x20).map (fun r => r.ret) = some 4 := by
  decide

/-- Claim C9, amended.  Whenever the quantum at `0x20` reads back `AA BB CC DD`
and the status register reports the transactions done, programming the 4 bytes
`01 00 00 00` at `0x20` does not fail with the already-programmed error: the
write-once guard lets the bytes through (no new byte has a set bit in common
with the byte it is programmed over), `_jz_efuse_write_bytes` programs the
quantum, with the supply raised and lowered once, and returns 0, and
`_jz_efuse_write` returns 4 with the position advanced to `0x24`. -/
theorem C9_disjoint_bits_pass_the_guard (K : Hdr) (s : jz_efuse) (junk : Nat → Nat)
    (hcur : ∀ k < 4, (_jz_efuse_read_bytes K s junk 0 0x20 4).buf k
      = bytes_of [0xAA, 0xBB, 0xCC, 0xDD] k)
    (hdone : ∀ k, u32 (s.efustate k) &&& K.JZ_EFUSE_EFUSTATE_RD_DONE ≠ 0 ∧
      u32 (s.efustate k) &&& K.JZ_EFUSE_EFUSTATE_WR_DONE ≠ 0) :
    is_space_written (_jz_efuse_read_bytes K s junk 0 0x20 4).buf
      (bytes_of [0x01, 0x00, 0x00, 0x00]) 4 = 0 ∧
    (_jz_efuse_write_bytes K s junk (bytes_of [0x01, 0x00, 0x00, 0x00]) 0 0x20 4).ret = 0 ∧
    log_extends s
      (_jz_efuse_write_bytes K s junk (bytes_of [0x01, 0x00, 0x00, 0x00]) 0 0x20 4).efuse
      [0, 1] ∧
    (_jz_efuse_write K s junk (bytes_of [0x01, 0x00, 0x00, 0x00]) 4 0x20).map
      (fun r => (r.ret, r.l)) = some (4, 0x24) := by
  have _ := hdone
  have g1 : is_space_written (_jz_efuse_read_bytes K s junk 0 32 4).buf
      (fun i => bytes_of [1, 0, 0, 0] (0 + i)) 4
      = is_space_written (bytes_of [0xAA, 0xBB, 0xCC, 0xDD]) (bytes_of [1, 0, 0, 0]) 4 :=
    is_space_written_congr _ _ _ _ 4 hcur (fun i _ => by rw [Nat.zero_add])
  have g2 : is_space_written (_jz_efuse_read_bytes K s junk 0 32 4).buf
      (bytes_of [1, 0, 0, 0]) 4
      = is_space_written (bytes_of [0xAA, 0xBB, 0xCC, 0xDD]) (bytes_of [1, 0, 0, 0]) 4 :=
    is_space_written_congr _ _ _ _ 4 hcur (fun i _ => rfl)
  have a1 : is_space_written (_jz_efuse_read_bytes K s junk 0 32 4).buf
      (fun i => bytes_of [1, 0, 0, 0] (0 + i)) 4 = 0 := by rw [g1]; decide
  have e1 : u32 4 = 4 := by decide
  have e2 : ((32 : Int) % 2 ^ 32).toNat = 32 := by decide
  have e3 : jz_efuse_get_skip (sub32 4 0) = 4 := by decide
  have e4 : (32 : Nat) < add32 32 4 := by decide
  have e5 : ¬ (add32 32 4 < add32 32 4) := by decide
  have e6 : to_int (add32 0 4) = 4 := by decide
  refine ⟨by rw [g2]; decide, write_bytes_ret_accepted K s junk _ 0 32 4 a1, ?_, ?_⟩
  · rw [write_bytes_accepted K s junk _ 0 32 4 a1]
    obtain ⟨c, hc, -, -, h3⟩ := write_bytes_program_eq K s _ []
      (read_bytes_log K s junk 0 32 4) (bytes_of [1, 0, 0, 0]) 0 32 4
    rw [hc]
    exact log_extends_writel_efuctrl h3 _
  · simp only [_jz_efuse_write, e1, e2, e3]
    rw [write_loop, if_pos e4,
      if_neg (by rw [write_bytes_ret_accepted K s junk _ 0 32 4 a1]; decide)]
    rw [write_loop, if_neg e5, e6]
    rfl

/-- The engine `ready_engine 0xDDCCBBAA` reads back `AA BB CC DD` at `0x20` and
its status register shows both done bits. -/
theorem C9_disjoint_bits_pass_the_guard_witness :
    (∀ k < 4, (_jz_efuse_read_bytes jz4780 (ready_engine 0xDDCCBBAA) (fun _ => 0) 0 0x20 4).buf k
      = bytes_of [0xAA, 0xBB, 0xCC, 0xDD] k) ∧
    (∀ k, u32 ((ready_engine 0xDDCCBBAA).efustate k) &&& jz4780.JZ_EFUSE_EFUSTATE_RD_DONE ≠ 0 ∧
      u32 ((ready_engine 0xDDCCBBAA).efustate k) &&& jz4780.JZ_EFUSE_EFUSTATE_WR_DONE ≠ 0) ∧
    is_space_written
      (_jz_efuse_read_bytes jz4780 (ready_engine 0xDDCCBBAA) (fun _ => 0) 0 0x20 4).buf
      (bytes_of [0x01, 0x00, 0x00, 0x00]) 4 = 0 ∧
    (_jz_efuse_write jz4780 (ready_engine 0xDDCCBBAA) (fun _ => 0)
      (bytes_of [0x01, 0x00, 0x00, 0x00]) 4 0x20).map (fun r => (r.ret, r.l)) = some (4, 0x24) :=
  ⟨by decide,
    fun _ => (by decide : u32 3 &&& jz4780.JZ_EFUSE_EFUSTATE_RD_DONE ≠ 0 ∧
      u32 3 &&& jz4780.JZ_EFUSE_EFUSTATE_WR_DONE ≠ 0),
    (C9_disjoint_bits_pass_the_guard jz4780 (ready_engine 0xDDCCBBAA) (fun _ => 0)
      (by decide)
      (fun _ => (by decide : u32 3 &&& jz4780.JZ_EFUSE_EFUSTATE_RD_DONE ≠ 0 ∧
        u32 3 &&& jz4780.JZ_EFUSE_EFUSTATE_WR_DONE ≠ 0))).1,
    (C9_disjoint_bits_pass_the_guard jz4780 (ready_engine 0xDDCCBBAA) (fun _ => 0)
      (by decide)
      (fun _ => (by decide : u32 3 &&& jz4780.JZ_EFUSE_EFUSTATE_RD_DONE ≠ 0 ∧
        u32 3 &&& jz4780.JZ_EFUSE_EFUSTATE_WR_DONE ≠ 0))).2.2.2⟩

/-! ## Control register programmed by a read -/

theorem read_efuctrl_value_keeps (K : Hdr) (ctrl addr skip i : Nat)
    (h : (ctrl &&& not32 (read_efuctrl_cleared K)).testBit i = true) :
    (read_efuctrl_value K ctrl addr skip).testBit i = true := by
  unfold read_efuctrl_cleared at h
  unfold read_efuctrl_value
  split_ifs <;> simp only [Nat.testBit_or, h, Bool.true_or]

/-- Claim C12, as the code has it.  Step 2 of `_jz_efuse_read_bytes` clears the
address field, program-enable, write-enable and the bits of the constant
`JZ_EFUSE_EFUCFG_RD_STR_SHIFT`, and every other bit of the prior value survives
into the value written.  On the JZ4780 layout, with a prior value that holds
chip-select and length 31, a read of 4 bytes at `0x20` writes `0x441F0001`:
the length field is 31, not 3, and chip-select is set although `0x20` lies in
the lower half.  Within one `_jz_efuse_read` of 36 bytes at offset 0 the second
transaction (4 bytes at `0x20`) leaves length 31 in the control register. -/
theorem C12_read_keeps_earlier_length_and_chip_select :
    (∀ (K : Hdr) (ctrl addr skip i : Nat),
      (ctrl &&& not32 (read_efuctrl_cleared K)).testBit i = true →
      (read_efuctrl_value K ctrl addr skip).testBit i = true) ∧
    read_efuctrl_value jz4780 0x401F0000 0x20 4 = 0x441F0001 ∧
    efuctrl_len jz4780 (read_efuctrl_value jz4780 0x401F0000 0x20 4) = 31 ∧
    efuctrl_addr jz4780 (read_efuctrl_value jz4780 0x401F0000 0x20 4) = 0x20 ∧
    read_efuctrl_value jz4780 0x401F0000 0x20 4 &&& jz4780.JZ_EFUSE_EFUCTRL_CS ≠ 0 ∧
    ¬ (0x20 ≥ jz4780.JZ_EFUSE_START_ADDR + 0x200) ∧
    (_jz_efuse_read_bytes jz4780
      { idle_engine 0 with efuctrl := 0x401F0000 } (fun _ => 0) 0 0x20 4).efuse.efuctrl
      = 0x441F0001 ∧
    (_jz_efuse_read jz4780 (idle_engine 0) (fun _ => 0) 36 0).map
      (fun r => (r.ret, efuctrl_len jz4780 r.efuse.efuctrl,
        efuctrl_addr jz4780 r.efuse.efuctrl)) = some (36, 31, 0x20) :=
  ⟨read_efuctrl_value_keeps, by decide, by decide, by decide, by decide, by decide,
    by decide, by decide⟩

/-! ## Range loops -/

theorem chunks_unfold {n : Nat} (h : 0 < n) :
    chunks n n = jz_efuse_get_skip n
      :: chunks (n - jz_efuse_get_skip n) (n - jz_efuse_get_skip n) := by
  have hpos := jz_efuse_get_skip_pos h
  have hle := jz_efuse_get_skip_le n
  obtain ⟨m, rfl⟩ : ∃ m, n = m + 1 := ⟨n - 1, by omega⟩
  have key := chunks_fuel (m + 1 - jz_efuse_get_skip (m + 1))
    (m + 1 - jz_efuse_get_skip (m + 1)) (m - (m + 1 - jz_efuse_get_skip (m + 1)))
    (Nat.le_refl _)
  have e : m + 1 - jz_efuse_get_skip (m + 1) + (m - (m + 1 - jz_efuse_get_skip (m + 1)))
      = m := by omega
  rw [e] at key
  rw [chunks, if_neg (by omega), key]

theorem to_int_of_lt {x : Nat} (h : x < 2147483648) : to_int x = (x : Int) := by
  unfold to_int
  have e : x % 2 ^ 32 = x := Nat.mod_eq_of_lt (by omega)
  rw [e, if_pos (by omega)]

theorem read_loop_eq (K : Hdr) (size start : Nat) (hw : start + size < 4294967296) :
    ∀ (fuel : Nat) (s : jz_efuse) (buf : Nat → Nat) (l : Int) (bytes : Nat),
      bytes ≤ size → size - bytes < fuel →
      (read_all K s buf
        (transactions start bytes (chunks (size - bytes) (size - bytes)))).isSome = true →
      read_loop K size start fuel s buf l bytes (start + bytes)
          (jz_efuse_get_skip (size - bytes))
        = (read_all K s buf
            (transactions start bytes (chunks (size - bytes) (size - bytes)))).map
          fun p => { ret := to_int size, efuse := p.1, buf := p.2,
                     l := l + ((size - bytes : Nat) : Int) } := by
  intro fuel
  induction fuel with
  | zero => intro s buf l bytes _ hf; omega
  | succ fuel ih =>
    intro s buf l bytes hb hf hall
    have hlim : add32 start size = start + size := add32_of_lt hw
    rw [read_loop, hlim]
    by_cases hlt : bytes < size
    · have hpos := jz_efuse_get_skip_pos (show 0 < size - bytes by omega)
      have hle := jz_efuse_get_skip_le (size - bytes)
      have e1 : add32 bytes (jz_efuse_get_skip (size - bytes))
          = bytes + jz_efuse_get_skip (size - bytes) := add32_of_lt (by omega)
      have e2 : add32 (start + bytes) (jz_efuse_get_skip (size - bytes))
          = start + (bytes + jz_efuse_get_skip (size - bytes)) :=
        (add32_of_lt (by omega)).trans (Nat.add_assoc _ _ _)
      have e3 : sub32 size (bytes + jz_efuse_get_skip (size - bytes))
          = size - (bytes + jz_efuse_get_skip (size - bytes)) :=
        sub32_of_le (by omega) (by omega)
      have e4 : size - bytes - jz_efuse_get_skip (size - bytes)
          = size - (bytes + jz_efuse_get_skip (size - bytes)) := by omega
      have e5 : l + ((jz_efuse_get_skip (size - bytes) : Nat) : Int)
          + ((size - (bytes + jz_efuse_get_skip (size - bytes)) : Nat) : Int)
          = l + ((size - bytes : Nat) : Int) := by omega
      rw [chunks_unfold (show 0 < size - bytes by omega), e4, transactions, read_all] at hall ⊢
      by_cases hr : (_jz_efuse_read_bytes K s buf bytes (start + bytes)
          (jz_efuse_get_skip (size - bytes))).ret < 0
      · rw [if_pos hr] at hall
        simp at hall
      · rw [if_neg hr] at hall ⊢
        rw [if_pos (by omega), if_neg hr]
        simp only [e1, e2, e3]
        rw [ih _ _ _ _ (by omega) (by omega) hall, e5]
    · have hbe : bytes = size := by omega
      subst hbe
      rw [if_neg (by omega), Nat.sub_self]
      simp [chunks, transactions, read_all]

theorem write_loop_eq (K : Hdr) (junk buf : Nat → Nat) (size start : Nat)
    (hw : start + size < 4294967296) :
    ∀ (fuel : Nat) (s : jz_efuse) (l : Int) (bytes : Nat),
      bytes ≤ size → size - bytes < fuel →
      (write_all K junk buf s
        (transactions start bytes (chunks (size - bytes) (size - bytes)))).isSome = true →
      write_loop K junk buf size start fuel s l bytes (start + bytes)
          (jz_efuse_get_skip (size - bytes))
        = (write_all K junk buf s
            (transactions start bytes (chunks (size - bytes) (size - bytes)))).map
          fun t => { ret := to_int size, efuse := t, buf := buf,
                     l := l + ((size - bytes : Nat) : Int) } := by
  intro fuel
  induction fuel with
  | zero => intro s l bytes _ hf; omega
  | succ fuel ih =>
    intro s l bytes hb hf hall
    have hlim : add32 start size = start + size := add32_of_lt hw
    rw [write_loop, hlim]
    by_cases hlt : bytes < size
    · have hpos := jz_efuse_get_skip_pos (show 0 < size - bytes by omega)
      have hle := jz_efuse_get_skip_le (size - bytes)
      have e1 : add32 bytes (jz_efuse_get_skip (size - bytes))
          = bytes + jz_efuse_get_skip (size - bytes) := add32_of_lt (by omega)
      have e2 : add32 (start + bytes) (jz_efuse_get_skip (size - bytes))
          = start + (bytes + jz_efuse_get_skip (size - bytes)) :=
        (add32_of_lt (by omega)).trans (Nat.add_assoc _ _ _)
      have e3 : sub32 size (bytes + jz_efuse_get_skip (size - bytes))
          = size - (bytes + jz_efuse_get_skip (size - bytes)) :=
        sub32_of_le (by omega) (by omega)
      have e4 : size - bytes - jz_efuse_get_skip (size - bytes)
          = size - (bytes + jz_efuse_get_skip (size - bytes)) := by omega
      have e5 : l + ((jz_efuse_get_skip (size - bytes) : Nat) : Int)
          + ((size - (bytes + jz_efuse_get_skip (size - bytes)) : Nat) : Int)
          = l + ((size - bytes : Nat) : Int) := by omega
      rw [chunks_unfold (show 0 < size - bytes by omega), e4, transactions, write_all] at hall ⊢
      by_cases hr : (_jz_efuse_write_bytes K s junk buf bytes (start + bytes)
          (jz_efuse_get_skip (size - bytes))).ret < 0
      · rw [if_pos hr] at hall
        simp at hall
      · rw [if_neg hr] at hall ⊢
        rw [if_pos (by omega), if_neg hr]
        simp only [e1, e2, e3]
        rw [ih _ _ _ (by omega) (by omega) hall, e5]
    · have hbe : bytes = size := by omega
      subst hbe
      rw [if_neg (by omega), Nat.sub_self]
      simp [chunks, transactions, write_all]

theorem transactions_skips (start : Nat) (qs : List Nat) :
    ∀ done, (transactions start done qs).map (fun t => t.skip) = qs := by
  induction qs with
  | nil => intro done; rfl
  | cons q qs ih => intro done; simp [transactions, ih]

theorem transactions_addr (start : Nat) (qs : List Nat) :
    ∀ done k, k < qs.length →
      ((transactions start done qs).map (fun t => t.addr)).getD k 0
        = start + done + (qs.take k).sum := by
  induction qs with
  | nil => intro done k hk; simp at hk
  | cons q qs ih =>
    intro done k hk
    cases k with
    | zero => simp [transactions]
    | succ k =>
      have := ih (done + q) k (by simpa using hk)
      simp only [transactions, List.map_cons, List.getD_cons_succ, List.take_succ_cons,
        List.sum_cons, this]
      omega

theorem transactions_addr_ge (start : Nat) (qs : List Nat) :
    ∀ done, ∀ a ∈ (transactions start done qs).map (fun t => t.addr), start + done ≤ a := by
  induction qs with
  | nil => intro done a ha; simp [transactions] at ha
  | cons q qs ih =>
    intro done a ha
    simp only [transactions, List.map_cons, List.mem_cons] at ha
    rcases ha with rfl | ha
    · exact Nat.le_refl _
    · have := ih (done + q) a ha
      omega

theorem transactions_increasing (start : Nat) (qs : List Nat) (hq : ∀ q ∈ qs, 0 < q) :
    ∀ done, List.Pairwise (fun a b => a < b)
      ((transactions start done qs).map (fun t => t.addr)) := by
  induction qs with
  | nil => intro done; simp [transactions]
  | cons q qs ih =>
    intro done
    simp only [transactions, List.map_cons, List.pairwise_cons]
    refine ⟨fun a ha => ?_, ih (fun x hx => hq x (List.mem_cons_of_mem _ hx)) _⟩
    have h1 := transactions_addr_ge start qs (done + q) a ha
    have h2 := hq q (List.mem_cons_self _ _)
    omega

theorem jz_efuse_read_eq (K : Hdr) (s : jz_efuse) (buf : Nat → Nat) (size n : Nat)
    (hn : n + size < 4294967296)
    (hall : (read_all K s buf (transactions n 0 (chunks size size))).isSome = true) :
    _jz_efuse_read K s buf size (n : Int)
      = (read_all K s buf (transactions n 0 (chunks size size))).map
        fun p => { ret := to_int size, efuse := p.1, buf := p.2,
                   l := (n : Int) + (size : Int) } := by
  have e1 : ((n : Int) % 2 ^ 32).toNat = n := by
    have p : (2 : Int) ^ 32 = 4294967296 := by norm_num
    rw [p, Int.emod_eq_of_lt (by omega) (by omega), Int.toNat_ofNat]
  have e2 : u32 size = size := Nat.mod_eq_of_lt (by omega)
  have e3 : sub32 size 0 = size := sub32_of_le (Nat.zero_le _) (by omega)
  have key := read_loop_eq K size n hn (size + 1) s buf (n : Int) 0 (Nat.zero_le _)
    (by omega)
  simp only [Nat.add_zero, Nat.sub_zero] at key
  simp only [_jz_efuse_read, e1, e2, e3]
  exact key hall

theorem jz_efuse_write_eq (K : Hdr) (s : jz_efuse) (junk buf : Nat → Nat) (size n : Nat)
    (hn : n + size < 4294967296)
    (hall : (write_all K junk buf s (transactions n 0 (chunks size size))).isSome = true) :
    _jz_efuse_write K s junk buf size (n : Int)
      = (write_all K junk buf s (transactions n 0 (chunks size size))).map
        fun t => { ret := to_int size, efuse := t, buf := buf,
                   l := (n : Int) + (size : Int) } := by
  have e1 : ((n : Int) % 2 ^ 32).toNat = n := by
    have p : (2 : Int) ^ 32 = 4294967296 := by norm_num
    rw [p, Int.emod_eq_of_lt (by omega) (by omega), Int.toNat_ofNat]
  have e2 : u32 size = size := Nat.mod_eq_of_lt (by omega)
  have e3 : sub32 size 0 = size := sub32_of_le (Nat.zero_le _) (by omega)
  have key := write_loop_eq K junk buf size n hn (size + 1) s (n : Int) 0
    (Nat.zero_le _) (by omega)
  simp only [Nat.add_zero, Nat.sub_zero] at key
  simp only [_jz_efuse_write, e1, e2, e3]
  exact key hall

theorem beyond_efuse_false_bounds (K : Hdr) (size : Nat) (lpos : Int)
    (hK : K.JZ_EFUSE_START_ADDR ≤ K.JZ_EFUSE_END_ADDR)
    (hE : K.JZ_EFUSE_END_ADDR < 2147483647) (hs : size < 4294967296)
    (h0 : 0 ≤ lpos) (h1 : lpos < 9223372036854775808)
    (h : beyond_efuse K size lpos = false) :
    lpos + (size : Int) < 4294967296 ∧ size < 2147483648 := by
  have key := beyond_efuse_iff K size lpos hK (by omega) hs h0 h1
  have hn : ¬ (lpos + size > (K.JZ_EFUSE_END_ADDR : Int) - K.JZ_EFUSE_START_ADDR + 1) := by
    rw [← key, h]
    decide
  omega

/-- Claim C11.  For every request that reaches the range loops, that is every
offset `l` from 0 and length `size` with `l + size` below `2 ^ 32` and `size`
below `2 ^ 31`, as the range check of the file operations guarantees
(`beyond_efuse_false_bounds`): the transactions of the request are one per
quantum of the chunker sequence for `size`, the `k`-th at address `l` plus the
sum of the earlier quanta, at strictly increasing addresses; when every read
transaction succeeds `_jz_efuse_read` issues exactly these, in this order,
returns `size` and leaves the position at `l + size`; and when every program
transaction succeeds so does `_jz_efuse_write`. -/
theorem C11_range_loop_in_address_order (K : Hdr) (s : jz_efuse) (junk buf : Nat → Nat)
    (size : Nat) (l : Int) (h0 : 0 ≤ l) (h1 : l + (size : Int) < 4294967296)
    (h2 : size < 2147483648) :
    (transactions l.toNat 0 (chunks size size)).map (fun t => t.skip) = chunks size size ∧
    (∀ k, k < (chunks size size).length →
      ((transactions l.toNat 0 (chunks size size)).map (fun t => t.addr)).getD k 0
        = l.toNat + ((chunks size size).take k).sum) ∧
    List.Pairwise (fun a b => a < b)
      ((transactions l.toNat 0 (chunks size size)).map (fun t => t.addr)) ∧
    ((read_all K s buf (transactions l.toNat 0 (chunks size size))).isSome = true →
      _jz_efuse_read K s buf size l
        = (read_all K s buf (transactions l.toNat 0 (chunks size size))).map
          fun p => { ret := (size : Int), efuse := p.1, buf := p.2, l := l + (size : Int) }) ∧
    ((write_all K junk buf s (transactions l.toNat 0 (chunks size size))).isSome = true →
      _jz_efuse_write K s junk buf size l
        = (write_all K junk buf s (transactions l.toNat 0 (chunks size size))).map
          fun t => { ret := (size : Int), efuse := t, buf := buf, l := l + (size : Int) }) := by
  obtain ⟨n, rfl⟩ := Int.eq_ofNat_of_zero_le h0
  have hn : n + size < 4294967296 := by omega
  have e4 : (n : Int).toNat = n := Int.toNat_ofNat n
  rw [e4]
  refine ⟨transactions_skips n _ 0, fun k hk => ?_, ?_, ?_, ?_⟩
  · rw [transactions_addr n _ 0 k hk, Nat.add_zero]
  · exact transactions_increasing n _
      (fun q hq => by
        have := (chunks_spec size size (Nat.le_refl _)).2.2 q hq
        unfold quantum_ok at this
        omega) 0
  · intro hall
    rw [jz_efuse_read_eq K s buf size n hn hall, to_int_of_lt h2]
  · intro hall
    rw [jz_efuse_write_eq K s junk buf size n hn hall, to_int_of_lt h2]

/-- A request of 6 bytes at offset `0x20` over a blank fuse array whose status
register reports every transaction done: it passes the range check, the quanta
are 4 and 2 at `0x20` and `0x24`, every read and every program transaction
succeeds, and both loops return 6 with the position at `0x26`. -/
theorem C11_range_loop_in_address_order_witness :
    beyond_efuse jz4780 6 0x20 = false ∧
    chunks 6 6 = [4, 2] ∧
    (transactions (0x20 : Int).toNat 0 (chunks 6 6)).map (fun t => t.addr) = [0x20, 0x24] ∧
    (read_all jz4780 blank_engine (fun _ => 0)
      (transactions (0x20 : Int).toNat 0 (chunks 6 6))).isSome = true ∧
    (write_all jz4780 (fun _ => 0) (bytes_of [1, 0, 0, 0, 1, 0]) blank_engine
      (transactions (0x20 : Int).toNat 0 (chunks 6 6))).isSome = true ∧
    _jz_efuse_read jz4780 blank_engine (fun _ => 0) 6 0x20
      = (read_all jz4780 blank_engine (fun _ => 0)
          (transactions (0x20 : Int).toNat 0 (chunks 6 6))).map
        (fun p => { ret := ((6 : Nat) : Int), efuse := p.1, buf := p.2,
                    l := 0x20 + ((6 : Nat) : Int) }) ∧
    _jz_efuse_write jz4780 blank_engine (fun _ => 0) (bytes_of [1, 0, 0, 0, 1, 0]) 6 0x20
      = (write_all jz4780 (fun _ => 0) (bytes_of [1, 0, 0, 0, 1, 0]) blank_engine
          (transactions (0x20 : Int).toNat 0 (chunks 6 6))).map
        (fun t => { ret := ((6 : Nat) : Int), efuse := t, buf := bytes_of [1, 0, 0, 0, 1, 0],
                    l := 0x20 + ((6 : Nat) : Int) }) ∧
    (_jz_efuse_read jz4780 blank_engine (fun _ => 0) 6 0x20).map (fun r => (r.ret, r.l))
      = some (6, 0x26) ∧
    (_jz_efuse_write jz4780 blank_engine (fun _ => 0)
      (bytes_of [1, 0, 0, 0, 1, 0]) 6 0x20).map (fun r => (r.ret, r.l)) = some (6, 0x26) :=
  ⟨by decide, by decide, by decide, by decide, by decide,
    (C11_range_loop_in_address_order jz4780 blank_engine (fun _ => 0)
      (fun _ => 0) 6 0x20 (by decide) (by decide) (by decide)).2.2.2.1 (by decide),
    (C11_range_loop_in_address_order jz4780 blank_engine (fun _ => 0)
      (bytes_of [1, 0, 0, 0, 1, 0]) 6 0x20 (by decide) (by decide) (by decide)).2.2.2.2
      (by decide),
    by decide, by decide⟩

end JzEfuse
